import Mathlib

/-!
Shallow embedding of the identifier algebra and renaming protocol of the
MUTE-structs LogootSplit CRDT, together with theorems settling the claims
about `createBetweenPosition`, `RenamingMap`, `ExtendedRenamingMap`,
`LogootSBlock` and the `fromPlain` deserializers.

Machine integers of the source (JavaScript numbers holding int32 values)
are modelled as `Int`; the source never relies on overflow (all arithmetic
on in-range values is exact in JS doubles), so no wrap-around is modelled.
-/

/-- One level of a position identifier: `(random, replicaNumber, clock, offset)`.
Modelled from the spec: the `IdentifierTuple` class is not under `src/`;
the spec fixes its fields and its lexicographic order. -/
structure IdentifierTuple where
  random : Int
  replicaNumber : Int
  clock : Int
  offset : Int
deriving DecidableEq, Repr

/-- Default tuple used for `getD`-style total lookups. -/
def defaultTuple : IdentifierTuple := ⟨0, 0, 0, 0⟩

/-- `INT32_TOP = 2^31 - 1`. -/
def INT32_TOP : Int := 2147483647

/-- `INT32_BOTTOM = -2^31`. -/
def INT32_BOTTOM : Int := -2147483648

/-- Sentinel tuple `MIN_TUPLE = (INT32_BOTTOM, 0, 0, 0)`. -/
def MIN_TUPLE : IdentifierTuple := ⟨INT32_BOTTOM, 0, 0, 0⟩

/-- Sentinel tuple `MAX_TUPLE = (INT32_TOP, 0, 0, 0)`. -/
def MAX_TUPLE : IdentifierTuple := ⟨INT32_TOP, 0, 0, 0⟩

/-- Lexicographic comparison of tuples on `(random, replicaNumber, clock, offset)`.
Modelled from the spec (`IdentifierTuple.compareTo`). -/
def IdentifierTuple.compareTo (t1 t2 : IdentifierTuple) : Ordering :=
  if t1.random < t2.random then .lt
  else if t2.random < t1.random then .gt
  else if t1.replicaNumber < t2.replicaNumber then .lt
  else if t2.replicaNumber < t1.replicaNumber then .gt
  else if t1.clock < t2.clock then .lt
  else if t2.clock < t1.clock then .gt
  else if t1.offset < t2.offset then .lt
  else if t2.offset < t1.offset then .gt
  else .eq

/-- The strict lexicographic order on tuples, as a proposition. -/
def tupLt (t1 t2 : IdentifierTuple) : Prop :=
  t1.random < t2.random ∨
    (t1.random = t2.random ∧
      (t1.replicaNumber < t2.replicaNumber ∨
        (t1.replicaNumber = t2.replicaNumber ∧
          (t1.clock < t2.clock ∨
            (t1.clock = t2.clock ∧ t1.offset < t2.offset)))))

instance (t1 t2 : IdentifierTuple) : Decidable (tupLt t1 t2) := by
  unfold tupLt; infer_instance

/-- Two tuples share a base when `(random, replicaNumber, clock)` agree
(`IdentifierTuple.equalsBase`, modelled from the spec). -/
def IdentifierTuple.equalsBase (t1 t2 : IdentifierTuple) : Prop :=
  t1.random = t2.random ∧ t1.replicaNumber = t2.replicaNumber ∧ t1.clock = t2.clock

instance (t1 t2 : IdentifierTuple) : Decidable (t1.equalsBase t2) := by
  unfold IdentifierTuple.equalsBase; infer_instance

/-- `IdentifierTuple.fromBase`: same `(random, replicaNumber, clock)`, new offset.
Modelled from the spec. -/
def IdentifierTuple.fromBase (t : IdentifierTuple) (offset : Int) : IdentifierTuple :=
  ⟨t.random, t.replicaNumber, t.clock, offset⟩

/-- Lexicographic comparison of tuple sequences; a strict prefix is smaller
(`Identifier.compareTo`, modelled from the spec: lexicographic on the tuple
sequence, shorter is smaller when it is a prefix). -/
def cmpTuples : List IdentifierTuple → List IdentifierTuple → Ordering
  | [], [] => .eq
  | [], _ :: _ => .lt
  | _ :: _, [] => .gt
  | t1 :: l1, t2 :: l2 =>
    match t1.compareTo t2 with
    | .eq => cmpTuples l1 l2
    | o => o

/-- The strict order on tuple sequences, as a proposition. -/
def tlistLt : List IdentifierTuple → List IdentifierTuple → Prop
  | [], [] => False
  | [], _ :: _ => True
  | _ :: _, [] => False
  | t1 :: l1, t2 :: l2 => tupLt t1 t2 ∨ (t1 = t2 ∧ tlistLt l1 l2)

instance : (l1 l2 : List IdentifierTuple) → Decidable (tlistLt l1 l2)
  | [], [] => by unfold tlistLt; infer_instance
  | [], _ :: _ => by unfold tlistLt; infer_instance
  | _ :: _, [] => by unfold tlistLt; infer_instance
  | t1 :: l1, t2 :: l2 => by
    unfold tlistLt
    have : Decidable (tlistLt l1 l2) := instDecidableTlistLt l1 l2
    infer_instance

/-- A position identifier: a sequence of tuples (nonempty in every identifier
the source constructs; nonemptiness is carried as a hypothesis where needed).
Modelled from the spec: the `Identifier` class is not under `src/`. -/
structure Identifier where
  tuples : List IdentifierTuple
deriving DecidableEq, Repr

/-- Default identifier used for `getD`-style total lookups. -/
def defaultId : Identifier := ⟨[defaultTuple]⟩

/-- `Identifier.compareTo`, as an `Ordering`. -/
def Identifier.compareTo (i1 i2 : Identifier) : Ordering :=
  cmpTuples i1.tuples i2.tuples

/-- The strict order on identifiers. -/
def idLt (i1 i2 : Identifier) : Prop := tlistLt i1.tuples i2.tuples

instance (i1 i2 : Identifier) : Decidable (idLt i1 i2) := by
  unfold idLt; infer_instance

/-- Non-strict order on identifiers. -/
def idLe (i1 i2 : Identifier) : Prop := idLt i1 i2 ∨ i1 = i2

instance (i1 i2 : Identifier) : Decidable (idLe i1 i2) := by
  unfold idLe; infer_instance

/-- `Identifier.length`. -/
def Identifier.length (id : Identifier) : Nat := id.tuples.length

/-- `Identifier.lastOffset`: offset of the last tuple. -/
def Identifier.lastOffset (id : Identifier) : Int :=
  (id.tuples.getLastD defaultTuple).offset

/-- The last tuple of an identifier (total, with default). -/
def Identifier.lastTuple (id : Identifier) : IdentifierTuple :=
  id.tuples.getLastD defaultTuple

/-- `Identifier.replicaNumber` getter: replica of the last tuple.
Modelled from the spec. -/
def Identifier.replicaNumber (id : Identifier) : Int := id.lastTuple.replicaNumber

/-- `Identifier.clock` getter: clock of the last tuple. Modelled from the spec. -/
def Identifier.clock (id : Identifier) : Int := id.lastTuple.clock

/-- `Identifier.fromBase(id, offset)`: same tuples, except the last tuple's
offset is replaced. Modelled from the spec. -/
def Identifier.fromBase (id : Identifier) (offset : Int) : Identifier :=
  ⟨id.tuples.dropLast ++ [id.lastTuple.fromBase offset]⟩

/-- `Identifier.getTail(k)`: tuples from index `k` on. Modelled from the spec. -/
def Identifier.getTail (id : Identifier) (k : Nat) : Identifier :=
  ⟨id.tuples.drop k⟩

/-- `Identifier.truncate(k)` head part: the first `k` tuples. -/
def Identifier.headPart (id : Identifier) (k : Nat) : Identifier :=
  ⟨id.tuples.take k⟩

/-- `Identifier.concat`. -/
def Identifier.concat (i1 i2 : Identifier) : Identifier :=
  ⟨i1.tuples ++ i2.tuples⟩

/-- `Identifier.isPrefix(I, J)`: the tuples of `I` are an initial segment of
the tuples of `J`. Modelled from the spec. -/
def Identifier.isPrefixOfId (i1 i2 : Identifier) : Prop :=
  i1.tuples <+: i2.tuples

instance (i1 i2 : Identifier) : Decidable (i1.isPrefixOfId i2) := by
  unfold Identifier.isPrefixOfId; infer_instance

/-- `Identifier.equalsBase(I, J)`: same length, all tuples but the last equal,
and the last tuples share a base. Modelled from the spec. -/
def Identifier.equalsBase (i1 i2 : Identifier) : Prop :=
  i1.tuples.length = i2.tuples.length ∧
    i1.tuples.dropLast = i2.tuples.dropLast ∧
    i1.lastTuple.equalsBase i2.lastTuple

instance (i1 i2 : Identifier) : Decidable (i1.equalsBase i2) := by
  unfold Identifier.equalsBase; infer_instance

/-- `createAtPosition(replicaNumber, clock, random, offset)`: the single-tuple
identifier `[(random, replicaNumber, clock, offset)]`. Modelled from the spec:
`idfactory.createAtPosition` is not under `src/`; the spec describes the new
identifiers of a renaming as `(newRandom, replicaNumber, clock, newOffset)`. -/
def createAtPosition (replicaNumber clock random offset : Int) : Identifier :=
  ⟨[⟨random, replicaNumber, clock, offset⟩]⟩

/-- `IdentifierInterval (idBegin, end)`: the identifiers sharing `idBegin`'s
base with last offsets `begin .. end`, where `begin = idBegin.lastOffset`.
Modelled from the spec (the class itself is not under `src/`). The source's
`end` field is named `endOffset` because `end` is reserved in Lean. -/
structure IdentifierInterval where
  idBegin : Identifier
  endOffset : Int
deriving DecidableEq, Repr

/-- Default interval for `getD`-style total lookups. -/
def defaultInterval : IdentifierInterval := ⟨defaultId, 0⟩

/-- `IdentifierInterval.begin` getter. -/
def IdentifierInterval.beginOffset (iv : IdentifierInterval) : Int :=
  iv.idBegin.lastOffset

/-- `IdentifierInterval.idEnd` getter. -/
def IdentifierInterval.idEnd (iv : IdentifierInterval) : Identifier :=
  iv.idBegin.fromBase iv.endOffset

/-- `IdentifierInterval.length` getter (an `Int`, `end - begin + 1`). -/
def IdentifierInterval.lengthInt (iv : IdentifierInterval) : Int :=
  iv.endOffset - iv.beginOffset + 1

/-- Number of identifiers of the interval, as a `Nat`. -/
def IdentifierInterval.lengthN (iv : IdentifierInterval) : Nat :=
  iv.lengthInt.toNat

/-- `IdentifierInterval.toIds()`: the identifiers of the interval in order. -/
def IdentifierInterval.toIds (iv : IdentifierInterval) : List Identifier :=
  (List.range iv.lengthN).map
    (fun k : Nat => iv.idBegin.fromBase (iv.beginOffset + (k : Int)))

/-- `IdentifierInterval.union(aBegin, aEnd)`: the smallest interval containing
both offset ranges. Modelled from the spec (§4.3). -/
def IdentifierInterval.union (iv : IdentifierInterval) (aBegin aEnd : Int) :
    IdentifierInterval :=
  ⟨iv.idBegin.fromBase (min iv.beginOffset aBegin), max iv.endOffset aEnd⟩

/-- `tuplesOf(id)`: the tuples of `id`, or `[]` for `null`. -/
def tuplesOf (id : Option Identifier) : List IdentifierTuple :=
  match id with
  | none => []
  | some i => i.tuples

/-- The lockstep loop of `createBetweenPosition` once `id1` is exhausted:
`t1` is the padding `MIN_TUPLE` from here on, `t2` runs over the remaining
tuples of `id2` (padded with `MAX_TUPLE` at its end, where the condition
`MAX - MIN < 2` is false — the gap is `2^32 - 1` — so the loop stops). -/
def cbpLoopA : (l2 : List IdentifierTuple) →
    List IdentifierTuple × IdentifierTuple × IdentifierTuple
  | [] => ([], MIN_TUPLE, MAX_TUPLE)
  | t2 :: l2 =>
    if t2.random - MIN_TUPLE.random < 2 then
      (MIN_TUPLE :: (cbpLoopA l2).1, (cbpLoopA l2).2)
    else
      ([], MIN_TUPLE, t2)

/-- The lockstep loop of `createBetweenPosition` once `id2` is exhausted:
`t2` is the padding `MAX_TUPLE` from here on, `t1` runs over the remaining
tuples of `id1` (padded with `MIN_TUPLE` at its end, where the loop stops). -/
def cbpLoopB : (l1 : List IdentifierTuple) →
    List IdentifierTuple × IdentifierTuple × IdentifierTuple
  | [] => ([], MIN_TUPLE, MAX_TUPLE)
  | t1 :: l1 =>
    if MAX_TUPLE.random - t1.random < 2 then
      (t1 :: (cbpLoopB l1).1, (cbpLoopB l1).2)
    else
      ([], t1, MAX_TUPLE)

/-- The lockstep loop of `createBetweenPosition`: while the current tuples
`t1` (from `id1`, padded with `MIN_TUPLE` after its end) and `t2` (from `id2`,
padded with `MAX_TUPLE`) satisfy `t2.random - t1.random < 2`, push `t1` and
advance both. Returns the pushed prefix together with the pair of tuples at
which the loop stopped. The iterator padding of the source is rendered by
delegating to `cbpLoopA`/`cbpLoopB` when a side is exhausted. -/
def cbpLoop : (l1 l2 : List IdentifierTuple) →
    List IdentifierTuple × IdentifierTuple × IdentifierTuple
  | [], l2 => cbpLoopA l2
  | l1@(_ :: _), [] => cbpLoopB l1
  | t1 :: l1, t2 :: l2 =>
    if t2.random - t1.random < 2 then
      (t1 :: (cbpLoop l1 l2).1, (cbpLoop l1 l2).2)
    else
      ([], t1, t2)

/-- `createBetweenPosition(id1, id2, replicaNumber, clock)`. The draw of
`randomInt32(tuple1.random + 1, tuple2.random)` is modelled by the explicit
argument `random`; theorems carry the draw contract
`tuple1.random < random < tuple2.random` as a hypothesis. -/
def createBetweenPosition (id1 id2 : Option Identifier)
    (replicaNumber clock random : Int) : Identifier :=
  ⟨(cbpLoop (tuplesOf id1) (tuplesOf id2)).1 ++ [⟨random, replicaNumber, clock, 0⟩]⟩

/-- The pair of tuples at which the loop of `createBetweenPosition` stops:
the random of the fresh tuple is drawn from the open interval they delimit. -/
def cbpBounds (id1 id2 : Option Identifier) : IdentifierTuple × IdentifierTuple :=
  (cbpLoop (tuplesOf id1) (tuplesOf id2)).2

/-- Side condition under which the generated identifier stays strictly below
`id2`: `id1 < id2`, and when `id2` is longer than `id1`, `id1` padded with
`MIN_TUPLE` up to `id2`'s length is still strictly below `id2`. -/
def padBelow (l1 l2 : List IdentifierTuple) : Prop :=
  tlistLt l1 l2 ∧
    (l2.length ≤ l1.length ∨
      tlistLt (l1 ++ List.replicate (l2.length - l1.length) MIN_TUPLE) l2)

instance (l1 l2 : List IdentifierTuple) : Decidable (padBelow l1 l2) := by
  unfold padBelow; infer_instance

/-- `LogootSBlock` (src/logootsblock.ts): a block is its identifier interval
plus the live element count `nbElement`. The constructor asserts
`0 ≤ nbElement`; that precondition is carried as a hypothesis. -/
structure LogootSBlock where
  idInterval : IdentifierInterval
  nbElement : Int
deriving DecidableEq, Repr

/-- `LogootSBlock.addBlock(pos, length)`: grow the count by `length` and
extend the interval by `union(pos, pos + length - 1)`. The source asserts
`0 < length`. -/
def LogootSBlock.addBlock (b : LogootSBlock) (pos length : Int) : LogootSBlock :=
  ⟨b.idInterval.union pos (pos + length - 1), b.nbElement + length⟩

/-- `LogootSBlock.delBlock(nbElt)`: decrease the count by `nbElt`. The source
asserts `0 < nbElt`. -/
def LogootSBlock.delBlock (b : LogootSBlock) (nbElt : Int) : LogootSBlock :=
  ⟨b.idInterval, b.nbElement - nbElt⟩

/-- An `addBlock` or `delBlock` call on a block. -/
inductive BlockOp where
  | add (pos length : Int)
  | del (nbElt : Int)
deriving DecidableEq, Repr

/-- Apply one block operation. -/
def applyBlockOp (b : LogootSBlock) : BlockOp → LogootSBlock
  | .add pos length => b.addBlock pos length
  | .del nbElt => b.delBlock nbElt

/-- Apply a sequence of block operations. -/
def applyBlockOps (b : LogootSBlock) (ops : List BlockOp) : LogootSBlock :=
  ops.foldl applyBlockOp b

/-- The preconditions of the operations, checked along the execution:
`addBlock` needs a positive length, `delBlock` a positive count not
exceeding the current `nbElement`. -/
def validBlockOps (b : LogootSBlock) : List BlockOp → Prop
  | [] => True
  | .add pos length :: rest => 0 < length ∧ validBlockOps (b.addBlock pos length) rest
  | .del nbElt :: rest =>
      0 < nbElt ∧ nbElt ≤ b.nbElement ∧ validBlockOps (b.delBlock nbElt) rest

instance : (b : LogootSBlock) → (ops : List BlockOp) → Decidable (validBlockOps b ops)
  | _, [] => by unfold validBlockOps; infer_instance
  | b, .add pos length :: rest => by
    unfold validBlockOps
    have : Decidable (validBlockOps (b.addBlock pos length) rest) :=
      instDecidableValidBlockOps _ rest
    infer_instance
  | b, .del nbElt :: rest => by
    unfold validBlockOps
    have : Decidable (validBlockOps (b.delBlock nbElt) rest) :=
      instDecidableValidBlockOps _ rest
    infer_instance

/-- `RenamingMap` (the renaming map of one epoch transition): issuing
`(replicaNumber, clock)` and the renamed identifier intervals. The source's
derived fields `indexes` and `maxOffset` are rendered as the functions
`RenamingMap.idxOf` and `RenamingMap.maxOffset` below. -/
structure RenamingMap where
  replicaNumber : Int
  clock : Int
  renamedIdIntervals : List IdentifierInterval
deriving DecidableEq, Repr

/-- The flattened list of renamed identifiers,
`renamedIdIntervals.flatMap((idInterval) => idInterval.toIds())`. -/
def RenamingMap.renamedIds (rm : RenamingMap) : List Identifier :=
  (rm.renamedIdIntervals.map IdentifierInterval.toIds).flatten

/-- The source's `indexes[m]`: the first new offset of the `m`-th interval,
i.e. the sum of the lengths of the intervals before it. -/
def RenamingMap.idxOf (rm : RenamingMap) (m : Nat) : Int :=
  ((rm.renamedIdIntervals.take m).map IdentifierInterval.lengthInt).sum

/-- `maxOffset`: the sum of the interval lengths minus 1. -/
def RenamingMap.maxOffset (rm : RenamingMap) : Int :=
  (rm.renamedIdIntervals.map IdentifierInterval.lengthInt).sum - 1

/-- `firstId` getter: `renamedIdIntervals[0].idBegin`. -/
def RenamingMap.firstId (rm : RenamingMap) : Identifier :=
  (rm.renamedIdIntervals.headD defaultInterval).idBegin

/-- `lastId` getter: `renamedIdIntervals[last].idEnd`. -/
def RenamingMap.lastId (rm : RenamingMap) : Identifier :=
  (rm.renamedIdIntervals.getLastD defaultInterval).idEnd

/-- `newRandom` getter: the random of the first tuple of `firstId`. -/
def RenamingMap.newRandom (rm : RenamingMap) : Int :=
  (rm.firstId.tuples.headD defaultTuple).random

/-- `newFirstId` getter. -/
def RenamingMap.newFirstId (rm : RenamingMap) : Identifier :=
  createAtPosition rm.replicaNumber rm.clock rm.newRandom 0

/-- `newLastId` getter. -/
def RenamingMap.newLastId (rm : RenamingMap) : Identifier :=
  createAtPosition rm.replicaNumber rm.clock rm.newRandom rm.maxOffset

/-- `hasBeenRenamed(id)`: `id` shares the base of `newFirstId` and its last
offset lies in `0 .. maxOffset`. -/
def RenamingMap.hasBeenRenamed (rm : RenamingMap) (id : Identifier) : Prop :=
  id.equalsBase rm.newFirstId ∧ 0 ≤ id.lastOffset ∧ id.lastOffset ≤ rm.maxOffset

instance (rm : RenamingMap) (id : Identifier) : Decidable (rm.hasBeenRenamed id) := by
  unfold RenamingMap.hasBeenRenamed; infer_instance

/-- The binary-search loop of `findPositionFromIndex`, with explicit fuel
(the source's `while (l <= r)` loop; with an index outside the stored range
the source loops forever or reads `indexes[m]` out of bounds — both are
modelled as `none`, and the theorems stay inside the provable range). -/
def RenamingMap.fpfiGo (rm : RenamingMap) (index : Int) :
    Nat → Nat → Nat → Option (Nat × Int)
  | 0, _, _ => none
  | fuel + 1, l, r =>
    if l ≤ r then
      let m := (l + r) / 2
      if m < rm.renamedIdIntervals.length then
        let otherIndex := rm.idxOf m
        let otherIdInterval := rm.renamedIdIntervals.getD m defaultInterval
        if otherIndex + otherIdInterval.lengthInt ≤ index then
          rm.fpfiGo index fuel (m + 1) r
        else if index < otherIndex then
          rm.fpfiGo index fuel l m
        else
          some (m, index - otherIndex + otherIdInterval.beginOffset)
      else none
    else none

/-- `findPositionFromIndex(index)`: interval position and offset of the
renamed identifier with new offset `index`. -/
def RenamingMap.findPositionFromIndex (rm : RenamingMap) (index : Int) :
    Option (Nat × Int) :=
  rm.fpfiGo index (rm.renamedIdIntervals.length + 2) 0 rm.renamedIdIntervals.length

/-- `findIdFromIndex(index)`: the renamed identifier with new offset `index`. -/
def RenamingMap.findIdFromIndex (rm : RenamingMap) (index : Int) :
    Option Identifier :=
  (rm.findPositionFromIndex index).map (fun pr =>
    ((rm.renamedIdIntervals.getD pr.1 defaultInterval).idBegin).fromBase pr.2)

/-- `findPredecessorAndSuccessorFromIndex(index)`: the renamed identifiers
with new offsets `index` and `index + 1` (crossing to the next interval when
needed; reading past the last interval is the source's `undefined` and is
modelled as `none`). -/
def RenamingMap.findPredecessorAndSuccessorFromIndex (rm : RenamingMap)
    (index : Int) : Option (Identifier × Identifier) :=
  (rm.findPositionFromIndex index).bind (fun pr =>
    let predecessorIdInterval := rm.renamedIdIntervals.getD pr.1 defaultInterval
    let predecessorId := predecessorIdInterval.idBegin.fromBase pr.2
    if pr.2 ≠ predecessorIdInterval.endOffset then
      some (predecessorId, predecessorId.fromBase (pr.2 + 1))
    else if pr.1 + 1 < rm.renamedIdIntervals.length then
      some (predecessorId, (rm.renamedIdIntervals.getD (pr.1 + 1) defaultInterval).idBegin)
    else none)

/-- `closestPredecessorOfFirstId`: `firstId` with its last offset
decremented. -/
def RenamingMap.closestPredecessorOfFirstId (rm : RenamingMap) : Identifier :=
  rm.firstId.fromBase (rm.firstId.lastOffset - 1)

/-- `closestPredecessorOfNewFirstId`: `newFirstId` with offset `-1`. -/
def RenamingMap.closestPredecessorOfNewFirstId (rm : RenamingMap) : Identifier :=
  rm.newFirstId.fromBase (rm.newFirstId.lastOffset - 1)

/-- `closestSuccessorOfNewLastId`: `newLastId` with offset `maxOffset + 1`. -/
def RenamingMap.closestSuccessorOfNewLastId (rm : RenamingMap) : Identifier :=
  rm.newLastId.fromBase (rm.newLastId.lastOffset + 1)

/-- `minFirstId` of `reverseRenameId`: the smaller of `firstId` and
`closestPredecessorOfNewFirstId`. -/
def RenamingMap.minFirstId (rm : RenamingMap) : Identifier :=
  if idLt rm.firstId rm.closestPredecessorOfNewFirstId then rm.firstId
  else rm.closestPredecessorOfNewFirstId

/-- `maxLastId` of `reverseRenameId`: `lastId` if `lastId > newLastId`, else
`closestSuccessorOfNewLastId`. -/
def RenamingMap.maxLastId (rm : RenamingMap) : Identifier :=
  if idLt rm.newLastId rm.lastId then rm.lastId
  else rm.closestSuccessorOfNewLastId

/-- The special branch of `renameIdLessThanFirstId`: `id` extends
`closestPredecessorOfFirstId` by `MAX_TUPLE` and a tail. -/
def specialLess (rm : RenamingMap) (id : Identifier) : Prop :=
  rm.closestPredecessorOfFirstId.length + 1 < id.length
    ∧ rm.closestPredecessorOfFirstId.isPrefixOfId id
    ∧ id.tuples.getD rm.closestPredecessorOfFirstId.length defaultTuple = MAX_TUPLE

instance (rm : RenamingMap) (id : Identifier) : Decidable (specialLess rm id) := by
  unfold specialLess; infer_instance

/-- The special branch of `renameIdGreaterThanLastId`: `newLastId < lastId`
and `id` extends `lastId` by `MIN_TUPLE` and a tail. -/
def specialGreater (rm : RenamingMap) (id : Identifier) : Prop :=
  idLt rm.newLastId rm.lastId
    ∧ rm.lastId.length + 1 < id.length
    ∧ rm.lastId.isPrefixOfId id
    ∧ id.tuples.getD rm.lastId.length defaultTuple = MIN_TUPLE

instance (rm : RenamingMap) (id : Identifier) : Decidable (specialGreater rm id) := by
  unfold specialGreater; infer_instance

/-- `renameIdLessThanFirstId(id)` (precondition `id < firstId`). -/
def RenamingMap.renameIdLessThanFirstId (rm : RenamingMap) (id : Identifier) :
    Identifier :=
  if specialLess rm id then
    rm.closestPredecessorOfNewFirstId.concat
      (id.getTail (rm.closestPredecessorOfFirstId.length + 1))
  else if idLt id rm.newFirstId then
    id
  else
    rm.closestPredecessorOfNewFirstId.concat id

/-- `renameIdGreaterThanLastId(id)` (precondition `lastId < id`). -/
def RenamingMap.renameIdGreaterThanLastId (rm : RenamingMap) (id : Identifier) :
    Identifier :=
  if specialGreater rm id then
    id.getTail (rm.lastId.length + 1)
  else if idLt rm.newLastId id then
    id
  else
    rm.newLastId.concat id

/-- `renameIdFromIndex(index)`: the new identifier at new offset `index`. -/
def RenamingMap.renameIdFromIndex (rm : RenamingMap) (index : Int) : Identifier :=
  createAtPosition rm.replicaNumber rm.clock rm.newRandom index

/-- Case 1 of `renameIdFromPredecessorId`: `id = predecessorId + MIN_TUPLE +
tail` with `tail < predecessorId`. -/
def shapeMinTail (id predecessorId : Identifier) : Prop :=
  predecessorId.length + 1 < id.length
    ∧ predecessorId.isPrefixOfId id
    ∧ id.tuples.getD predecessorId.length defaultTuple = MIN_TUPLE
    ∧ idLt (id.getTail (predecessorId.length + 1)) predecessorId

instance (id predecessorId : Identifier) : Decidable (shapeMinTail id predecessorId) := by
  unfold shapeMinTail; infer_instance

/-- Case 2 of `renameIdFromPredecessorId`: `id =
closestPredecessorOfSuccessorId + MAX_TUPLE + tail` with `successorId < tail`. -/
def shapeMaxTail (id successorId : Identifier) : Prop :=
  successorId.length + 1 < id.length
    ∧ (successorId.fromBase (successorId.lastOffset - 1)).isPrefixOfId id
    ∧ id.tuples.getD successorId.length defaultTuple = MAX_TUPLE
    ∧ idLt successorId (id.getTail (successorId.length + 1))

instance (id successorId : Identifier) : Decidable (shapeMaxTail id successorId) := by
  unfold shapeMaxTail; infer_instance

/-- `renameIdFromPredecessorId(id, predecessorId, index)`: rename of a
concurrently inserted identifier from its renamed predecessor. The successor
lookup `findIdFromIndex(index + 1)` can fail outside the provable range
(`none`). -/
def RenamingMap.renameIdFromPredecessorId (rm : RenamingMap)
    (id predecessorId : Identifier) (index : Int) : Option Identifier :=
  let newPredecessorId := createAtPosition rm.replicaNumber rm.clock rm.newRandom index
  if shapeMinTail id predecessorId then
    some (newPredecessorId.concat (id.getTail (predecessorId.length + 1)))
  else
    (rm.findIdFromIndex (index + 1)).map (fun successorId =>
      if shapeMaxTail id successorId then
        newPredecessorId.concat (id.getTail (successorId.length + 1))
      else
        newPredecessorId.concat id)

/-- The scan of `renameIds`: starting from `currentIndex = -1`, advance while
the next renamed identifier is `≤ id`. Returns the number of renamed
identifiers consumed (so the final `currentIndex` is this count minus 1). -/
def scanGo : List Identifier → Identifier → Nat
  | [], _ => 0
  | r :: rs, id => if idLt id r then 0 else scanGo rs id + 1

/-- `renameIds([id], -1)` for a single identifier (`initRenameSeq`): the scan
followed by the four-way case dispatch of the source. -/
def RenamingMap.renameOne (rm : RenamingMap) (id : Identifier) : Option Identifier :=
  if scanGo rm.renamedIds id = 0 then
    some (rm.renameIdLessThanFirstId id)
  else if rm.renamedIds.getD (scanGo rm.renamedIds id - 1) defaultId = id then
    some (rm.renameIdFromIndex ((scanGo rm.renamedIds id : Int) - 1))
  else if scanGo rm.renamedIds id = rm.renamedIds.length then
    some (rm.renameIdGreaterThanLastId id)
  else
    rm.renameIdFromPredecessorId id
      (rm.renamedIds.getD (scanGo rm.renamedIds id - 1) defaultId)
      ((scanGo rm.renamedIds id : Int) - 1)

/-- `reverseRenameId(id)`: the five-zone reverse translation. Failing lookups
(exceptions or `undefined` accesses in the source) are `none`. -/
def RenamingMap.reverseRenameId (rm : RenamingMap) (id : Identifier) :
    Option Identifier :=
  if rm.hasBeenRenamed id then
    rm.findIdFromIndex id.lastOffset
  else
    if idLt id rm.minFirstId ∨ idLt rm.maxLastId id then
      some id
    else if idLt id rm.newFirstId then
      let endPart := id.getTail 1
      match endPart.tuples with
      | [] => none
      | e0 :: _ =>
        if e0.random = rm.newRandom then
          some endPart
        else
          let closestPredecessorOfFirstId := rm.firstId.fromBase (rm.firstId.lastOffset - 1)
          some ⟨closestPredecessorOfFirstId.tuples ++ MAX_TUPLE :: endPart.tuples⟩
    else if idLt rm.lastId rm.newLastId ∧ idLt rm.newLastId id
        ∧ idLt id rm.closestSuccessorOfNewLastId then
      let tail2 := id.getTail 1
      if idLt tail2 rm.lastId then
        some ⟨rm.lastId.tuples ++ MIN_TUPLE :: tail2.tuples⟩
      else if idLt rm.lastId tail2 ∧ idLt tail2 rm.newLastId then
        some tail2
      else
        some id
    else if idLt rm.newLastId id ∧ idLt id rm.lastId then
      some ⟨rm.lastId.tuples ++ MIN_TUPLE :: id.tuples⟩
    else
      let tail := id.getTail 1
      match id.tuples with
      | [] => none
      | h0 :: _ =>
        (rm.findPredecessorAndSuccessorFromIndex h0.offset).map (fun pr =>
          if idLt tail pr.1 then
            ⟨pr.1.tuples ++ MIN_TUPLE :: tail.tuples⟩
          else if idLt pr.2 tail then
            ⟨(pr.2.fromBase (pr.2.lastOffset - 1)).tuples ++ MAX_TUPLE :: tail.tuples⟩
          else
            tail)

/-- Well-formedness of a renaming map, guaranteed by construction at rename
time: at least one interval, every interval is nonempty (`begin ≤ end`) with
a nonempty base identifier, and the renamed identifiers are strictly
ascending. -/
def RenamingMap.wf (rm : RenamingMap) : Prop :=
  rm.renamedIdIntervals ≠ [] ∧
  (∀ iv ∈ rm.renamedIdIntervals, iv.idBegin.tuples ≠ [] ∧ iv.beginOffset ≤ iv.endOffset) ∧
  rm.renamedIds.Pairwise idLt

instance (rm : RenamingMap) : Decidable rm.wf := by
  unfold RenamingMap.wf; infer_instance

/-- Nat-valued version of the source's `indexes[m]`. -/
def RenamingMap.natIdx (rm : RenamingMap) (m : Nat) : Nat :=
  ((rm.renamedIdIntervals.take m).map IdentifierInterval.lengthN).sum

/-- The key under which `ExtendedRenamingMap`'s nested maps index an
identifier: `(replicaNumber, clock, lastOffset)` of its last tuple. -/
def keyOf (id : Identifier) : Int × Int × Int :=
  (id.replicaNumber, id.clock, id.lastOffset)

/-- Lookup in the nested `map` of `ExtendedRenamingMap`: entries are inserted
in renamed order with `newOffset` increasing, and a later identifier with the
same key overwrites an earlier one, so the lookup returns the index of the
last entry with the key. -/
def lookupNewOffset : List Identifier → Int × Int × Int → Option Nat
  | [], _ => none
  | r :: rs, key =>
    match lookupNewOffset rs key with
    | some k => some (k + 1)
    | none => if keyOf r = key then some 0 else none

/-- `ExtendedRenamingMap` is built `fromRenamingMap` with the same
`(replicaNumber, clock, renamedIdIntervals)`; its derived state (the
`renamedIds` array and both maps) is modelled as functions of the same
`RenamingMap` data. Its own getters recompute `firstId`, `lastId`,
`newRandom` and `maxOffset` from the flattened `renamedIds`. -/
def ExtendedRenamingMap.firstId (rm : RenamingMap) : Identifier :=
  rm.renamedIds.headD defaultId

/-- `ExtendedRenamingMap`'s `lastId` getter. -/
def ExtendedRenamingMap.lastId (rm : RenamingMap) : Identifier :=
  rm.renamedIds.getLastD defaultId

/-- `ExtendedRenamingMap`'s `newRandom` getter. -/
def ExtendedRenamingMap.newRandom (rm : RenamingMap) : Int :=
  ((ExtendedRenamingMap.firstId rm).tuples.headD defaultTuple).random

/-- `ExtendedRenamingMap`'s `maxOffset`: the running `newOffset` counter
minus one, i.e. the number of renamed identifiers minus one. -/
def ExtendedRenamingMap.maxOffset (rm : RenamingMap) : Int :=
  (rm.renamedIds.length : Int) - 1

/-- `ExtendedRenamingMap`'s `newFirstId` getter. -/
def ExtendedRenamingMap.newFirstId (rm : RenamingMap) : Identifier :=
  createAtPosition rm.replicaNumber rm.clock (ExtendedRenamingMap.newRandom rm) 0

/-- `ExtendedRenamingMap`'s `newLastId` getter. -/
def ExtendedRenamingMap.newLastId (rm : RenamingMap) : Identifier :=
  createAtPosition rm.replicaNumber rm.clock (ExtendedRenamingMap.newRandom rm)
    (ExtendedRenamingMap.maxOffset rm)

/-- `ExtendedRenamingMap.hasBeenRenamed`. -/
def ExtendedRenamingMap.hasBeenRenamed (rm : RenamingMap) (id : Identifier) : Prop :=
  id.equalsBase (ExtendedRenamingMap.newFirstId rm)
    ∧ 0 ≤ id.lastOffset ∧ id.lastOffset ≤ ExtendedRenamingMap.maxOffset rm

instance (rm : RenamingMap) (id : Identifier) :
    Decidable (ExtendedRenamingMap.hasBeenRenamed rm id) := by
  unfold ExtendedRenamingMap.hasBeenRenamed; infer_instance

/-- Modelled from the spec: `findPredecessor` (in `helpers`, not under
`src/`) returns the greatest element of the sorted list strictly less than
`id` (the default stands for the `undefined` of an empty search). -/
def findPredecessor (l : List Identifier) (id : Identifier) : Identifier :=
  (l.filter (fun r => decide (idLt r id))).getLastD defaultId

/-- `ExtendedRenamingMap.renameId`, with explicit recursion fuel: the
recursive call is always on the predecessor, a renamed identifier whose map
lookup succeeds, so the recursion depth never exceeds 2 and the fuel-0 arm
is unreachable from `renameIdE`. -/
def renameIdEAux (rm : RenamingMap) : Nat → Identifier → Identifier
  | 0, id => id
  | fuel + 1, id =>
    if idLt id (ExtendedRenamingMap.firstId rm)
        ∨ idLt (ExtendedRenamingMap.lastId rm) id then
      id
    else
      match lookupNewOffset rm.renamedIds (keyOf id) with
      | some newOffset =>
        createAtPosition rm.replicaNumber rm.clock (ExtendedRenamingMap.newRandom rm)
          (newOffset : Int)
      | none =>
        (renameIdEAux rm fuel (findPredecessor rm.renamedIds id)).concat id

/-- `ExtendedRenamingMap.renameId`. -/
def ExtendedRenamingMap.renameId (rm : RenamingMap) (id : Identifier) : Identifier :=
  renameIdEAux rm 2 id

/-- Total-function lookup at an (`Int`) index of the
`newOffsetToOldIdMap`, whose keys are exactly `0 .. maxOffset`; a missing
key is JavaScript `undefined`, modelled as `none`. -/
def getAtInt (l : List Identifier) (i : Int) : Option Identifier :=
  if 0 ≤ i then l.get? i.toNat else none

/-- `ExtendedRenamingMap.reverseRenameId`; `undefined` lookups (which the
source would crash on) are `none`. -/
def ExtendedRenamingMap.reverseRenameId (rm : RenamingMap) (id : Identifier) :
    Option Identifier :=
  if ExtendedRenamingMap.hasBeenRenamed rm id then
    getAtInt rm.renamedIds id.lastOffset
  else if idLt id (ExtendedRenamingMap.firstId rm)
      ∨ idLt (ExtendedRenamingMap.lastId rm) id then
    some id
  else if idLt (ExtendedRenamingMap.newLastId rm) id
      ∧ idLt id (ExtendedRenamingMap.lastId rm) then
    some ((ExtendedRenamingMap.lastId rm).concat id)
  else
    match id.tuples with
    | [] => none
    | h0 :: _ =>
      match getAtInt rm.renamedIds h0.offset with
      | none => none
      | some predecessorId =>
        if idLt (id.getTail 1) predecessorId then
          some (predecessorId.concat (id.getTail 1))
        else
          match getAtInt rm.renamedIds (h0.offset + 1) with
          | none => none
          | some successorId =>
            if idLt successorId (id.getTail 1) then
              some ((successorId.fromBase (successorId.lastOffset - 1)).concat
                (id.getTail 1))
            else
              some (id.getTail 1)

/-- Field names appearing in the serialized (plain-object) forms of blocks,
intervals, tuples and renaming maps. -/
inductive PKey where
  | random
  | replicaNumber
  | clock
  | offset
  | base
  | beginKey
  | endKey
  | idInterval
  | nbElement
  | renamedIdIntervals
deriving DecidableEq, Repr

/-- A JSON-like plain value: an integral number, a non-integral number, a
string, a boolean, `null`, an array, or an object with `PKey`-named
fields. -/
inductive Plain where
  | intNum : Int → Plain
  | nonIntNum : Plain
  | strv : Plain
  | boolv : Bool → Plain
  | nullv : Plain
  | arr : List Plain → Plain
  | obj : List (PKey × Plain) → Plain

/-- First-match association lookup among an object's fields. -/
def lookupKey : List (PKey × Plain) → PKey → Option Plain
  | [], _ => none
  | (k, v) :: rest, key => if k = key then some v else lookupKey rest key

/-- Property access `o.key`: `some` value on an object that has the field,
`none` (JavaScript `undefined`) otherwise. -/
def Plain.get? : Plain → PKey → Option Plain
  | .obj fields, k => lookupKey fields k
  | _, _ => none

/-- `typeof x === "number" && isInt32(x)`: an integral number in the signed
32-bit range, as an `Int`; anything else (including a missing field) is
rejected. -/
def asInt32? : Option Plain → Option Int
  | some (.intNum n) =>
    if -2147483648 ≤ n ∧ n ≤ 2147483647 then some n else none
  | _ => none

/-- `x instanceof Object`: true exactly on arrays and plain objects. -/
def isObjectLike : Plain → Bool
  | .arr _ => true
  | .obj _ => true
  | _ => false

/-- `Array.isArray`: the element list of an array value. -/
def asArr : Plain → Option (List Plain)
  | .arr l => some l
  | _ => none

/-- Modelled from the spec: a serialized tuple is an object with the four
int32 fields `random`, `replicaNumber`, `clock`, `offset`; a missing field
or a non-int32 value is rejected. -/
def IdentifierTuple.fromPlain (p : Plain) : Option IdentifierTuple :=
  (asInt32? (p.get? PKey.random)).bind (fun r =>
  (asInt32? (p.get? PKey.replicaNumber)).bind (fun rn =>
  (asInt32? (p.get? PKey.clock)).bind (fun c =>
  (asInt32? (p.get? PKey.offset)).bind (fun o =>
  some ⟨r, rn, c, o⟩))))

/-- Deserialize a list of serialized tuples; any invalid element rejects the
whole list. -/
def tuplesFromPlain : List Plain → Option (List IdentifierTuple)
  | [] => some []
  | q :: qs =>
    (IdentifierTuple.fromPlain q).bind (fun t =>
    (tuplesFromPlain qs).bind (fun ts =>
    some (t :: ts)))

/-- Modelled from the spec: an interval serializes as an object with an
array field `base` of serialized tuples and int32 fields `begin` and `end`;
the begin identifier is `base` with its last offset replaced by `begin`.
A missing field, a non-int32 value, a non-array or empty `base`, an invalid
tuple, or `begin > end` is rejected. -/
def IdentifierInterval.fromPlain (p : Plain) : Option IdentifierInterval :=
  (p.get? PKey.base).bind (fun pb =>
  (asArr pb).bind (fun l =>
  (asInt32? (p.get? PKey.beginKey)).bind (fun b =>
  (asInt32? (p.get? PKey.endKey)).bind (fun e =>
  (tuplesFromPlain l).bind (fun ts =>
  if ts ≠ [] ∧ b ≤ e then
    some ⟨(⟨ts⟩ : Identifier).fromBase b, e⟩
  else none)))))

/-- `LogootSBlock.fromPlain`: requires an object with an object-valued
`idInterval` field and a non-negative int32 `nbElement` field whose interval
deserializes; otherwise `null` (`none`). Field access on a non-object is
`undefined` and is rejected by the same checks. -/
def LogootSBlock.fromPlain (p : Plain) : Option LogootSBlock :=
  (p.get? PKey.idInterval).bind (fun pid =>
  (asInt32? (p.get? PKey.nbElement)).bind (fun n =>
  if isObjectLike pid = true ∧ 0 ≤ n then
    (IdentifierInterval.fromPlain pid).bind (fun iv => some ⟨iv, n⟩)
  else none))

/-- `RenamingMap.fromPlain`: requires int32 `replicaNumber` and `clock`
fields and a nonempty array `renamedIdIntervals` all of whose elements
deserialize (the source maps `IdentifierInterval.fromPlain`, filters out the
`null`s and compares lengths); otherwise `null` (`none`). -/
def RenamingMap.fromPlain (p : Plain) : Option RenamingMap :=
  (asInt32? (p.get? PKey.replicaNumber)).bind (fun rn =>
  (asInt32? (p.get? PKey.clock)).bind (fun c =>
  (p.get? PKey.renamedIdIntervals).bind (fun pl =>
  (asArr pl).bind (fun l =>
  if 0 < l.length
      ∧ (l.filterMap IdentifierInterval.fromPlain).length = l.length then
    some ⟨rn, c, l.filterMap IdentifierInterval.fromPlain⟩
  else none))))

/-- Well-formed serialized block, following the spec's wording: an
object-valued `idInterval` holding a valid identifier interval and a
non-negative int32 `nbElement`. -/
def blockShape (p : Plain) : Prop :=
  ∃ pid n iv,
    p.get? PKey.idInterval = some pid
      ∧ isObjectLike pid = true
      ∧ asInt32? (p.get? PKey.nbElement) = some n
      ∧ 0 ≤ n
      ∧ IdentifierInterval.fromPlain pid = some iv

/-- Well-formed serialized renaming map, following the spec's wording:
int32 `replicaNumber` and `clock` and a nonempty array
`renamedIdIntervals` with no invalid element. -/
def rmapShape (p : Plain) : Prop :=
  ∃ rn c l,
    asInt32? (p.get? PKey.replicaNumber) = some rn
      ∧ asInt32? (p.get? PKey.clock) = some c
      ∧ p.get? PKey.renamedIdIntervals = some (Plain.arr l)
      ∧ l ≠ []
      ∧ ∀ q ∈ l, IdentifierInterval.fromPlain q ≠ none

theorem tupLt_trans {a b c : IdentifierTuple} (h1 : tupLt a b) (h2 : tupLt b c) :
    tupLt a c := by
  unfold tupLt at *
  rcases h1 with h1 | ⟨e1, h1⟩ <;> rcases h2 with h2 | ⟨e2, h2⟩
  · exact Or.inl (h1.trans h2)
  · exact Or.inl (e2 ▸ h1)
  · exact Or.inl (e1 ▸ h2)
  · refine Or.inr ⟨e1.trans e2, ?_⟩
    rcases h1 with h1 | ⟨f1, h1⟩ <;> rcases h2 with h2 | ⟨f2, h2⟩
    · exact Or.inl (h1.trans h2)
    · exact Or.inl (f2 ▸ h1)
    · exact Or.inl (f1 ▸ h2)
    · refine Or.inr ⟨f1.trans f2, ?_⟩
      rcases h1 with h1 | ⟨g1, h1⟩ <;> rcases h2 with h2 | ⟨g2, h2⟩
      · exact Or.inl (h1.trans h2)
      · exact Or.inl (g2 ▸ h1)
      · exact Or.inl (g1 ▸ h2)
      · exact Or.inr ⟨g1.trans g2, h1.trans h2⟩

theorem tupLt_asymm {a b : IdentifierTuple} (h : tupLt a b) : ¬ tupLt b a := by
  unfold tupLt at *
  omega

theorem tupLt_irrefl (a : IdentifierTuple) : ¬ tupLt a a := by
  unfold tupLt; omega

theorem compareTo_eq_lt_iff {t1 t2 : IdentifierTuple} :
    t1.compareTo t2 = .lt ↔ tupLt t1 t2 := by
  cases t1; cases t2
  unfold IdentifierTuple.compareTo tupLt
  dsimp only
  split_ifs <;> simp_all <;> omega

theorem compareTo_eq_eq_iff {t1 t2 : IdentifierTuple} :
    t1.compareTo t2 = .eq ↔ t1 = t2 := by
  cases t1; cases t2
  unfold IdentifierTuple.compareTo
  dsimp only
  split_ifs <;> simp_all <;> omega

theorem compareTo_eq_gt_iff {t1 t2 : IdentifierTuple} :
    t1.compareTo t2 = .gt ↔ tupLt t2 t1 := by
  cases t1; cases t2
  unfold IdentifierTuple.compareTo tupLt
  dsimp only
  split_ifs <;> simp_all <;> omega

theorem cmpTuples_eq_lt_iff : ∀ {l1 l2 : List IdentifierTuple},
    cmpTuples l1 l2 = .lt ↔ tlistLt l1 l2
  | [], [] => by simp [cmpTuples, tlistLt]
  | [], _ :: _ => by simp [cmpTuples, tlistLt]
  | _ :: _, [] => by simp [cmpTuples, tlistLt]
  | t1 :: l1, t2 :: l2 => by
    unfold cmpTuples tlistLt
    rcases h : t1.compareTo t2 with _ | _ | _
    · simp [compareTo_eq_lt_iff.mp h]
    · have he : t1 = t2 := compareTo_eq_eq_iff.mp h
      subst he
      simp [tupLt_irrefl t1, @cmpTuples_eq_lt_iff l1 l2]
    · have hg : tupLt t2 t1 := compareTo_eq_gt_iff.mp h
      have hnl : ¬ tupLt t1 t2 := tupLt_asymm hg
      have hne : t1 ≠ t2 := by
        intro he; subst he; exact tupLt_irrefl t1 hg
      simp [hnl, hne]

theorem cmpTuples_eq_eq_iff : ∀ {l1 l2 : List IdentifierTuple},
    cmpTuples l1 l2 = .eq ↔ l1 = l2
  | [], [] => by simp [cmpTuples]
  | [], _ :: _ => by simp [cmpTuples]
  | _ :: _, [] => by simp [cmpTuples]
  | t1 :: l1, t2 :: l2 => by
    unfold cmpTuples
    rcases h : t1.compareTo t2 with _ | _ | _
    · have : t1 ≠ t2 := by
        intro he; rw [he, (@compareTo_eq_eq_iff t2 t2).mpr rfl] at h; cases h
      simp [this]
    · have he : t1 = t2 := compareTo_eq_eq_iff.mp h
      simp [he, @cmpTuples_eq_eq_iff l1 l2]
    · have : t1 ≠ t2 := by
        intro he; rw [he, (@compareTo_eq_eq_iff t2 t2).mpr rfl] at h; cases h
      simp [this]

theorem cmpTuples_eq_gt_iff : ∀ {l1 l2 : List IdentifierTuple},
    cmpTuples l1 l2 = .gt ↔ tlistLt l2 l1
  | [], [] => by simp [cmpTuples, tlistLt]
  | [], _ :: _ => by simp [cmpTuples, tlistLt]
  | _ :: _, [] => by simp [cmpTuples, tlistLt]
  | t1 :: l1, t2 :: l2 => by
    unfold cmpTuples tlistLt
    rcases h : t1.compareTo t2 with _ | _ | _
    · have hl : tupLt t1 t2 := compareTo_eq_lt_iff.mp h
      have hnl : ¬ tupLt t2 t1 := tupLt_asymm hl
      have hne : t2 ≠ t1 := by
        intro he; rw [he] at hl; exact tupLt_irrefl t1 hl
      simp [hnl, hne]
    · have he : t1 = t2 := compareTo_eq_eq_iff.mp h
      subst he
      simp [tupLt_irrefl t1, @cmpTuples_eq_gt_iff l1 l2]
    · simp [compareTo_eq_gt_iff.mp h]

theorem tlistLt_trans : ∀ {a b c : List IdentifierTuple},
    tlistLt a b → tlistLt b c → tlistLt a c
  | [], _ :: _, _ :: _, _, _ => by unfold tlistLt; trivial
  | _ :: _, _ :: _, _ :: _, h1, h2 => by
    unfold tlistLt at *
    rcases h1 with h1 | ⟨e1, h1⟩ <;> rcases h2 with h2 | ⟨e2, h2⟩
    · exact Or.inl (tupLt_trans h1 h2)
    · exact Or.inl (e2 ▸ h1)
    · exact Or.inl (e1 ▸ h2)
    · exact Or.inr ⟨e1.trans e2, tlistLt_trans h1 h2⟩
  | [], [], _, h1, _ => by unfold tlistLt at h1; cases h1
  | _ :: _, [], _, h1, _ => by unfold tlistLt at h1; cases h1
  | [], _ :: _, [], _, h2 => by unfold tlistLt at h2; cases h2
  | _ :: _, _ :: _, [], _, h2 => by unfold tlistLt at h2; cases h2

theorem tlistLt_irrefl : ∀ (a : List IdentifierTuple), ¬ tlistLt a a
  | [] => by unfold tlistLt; exact id
  | t :: l => by
    unfold tlistLt
    rintro (h | ⟨-, h⟩)
    · exact tupLt_irrefl t h
    · exact tlistLt_irrefl l h

theorem tlistLt_asymm {a b : List IdentifierTuple} (h : tlistLt a b) :
    ¬ tlistLt b a :=
  fun hc => tlistLt_irrefl a (tlistLt_trans h hc)

/-- `cmpTuples` on two lists with the same head reduces to the tails. -/
theorem cmpTuples_cons_same (t : IdentifierTuple) (l1 l2 : List IdentifierTuple) :
    cmpTuples (t :: l1) (t :: l2) = cmpTuples l1 l2 := by
  show (match t.compareTo t with | .eq => cmpTuples l1 l2 | o => o) = cmpTuples l1 l2
  rw [(@compareTo_eq_eq_iff t t).mpr rfl]

/-- Appending a common prefix preserves the comparison result. -/
theorem cmpTuples_append_left (p l1 l2 : List IdentifierTuple) :
    cmpTuples (p ++ l1) (p ++ l2) = cmpTuples l1 l2 := by
  induction p with
  | nil => rfl
  | cons t p ih => simpa [cmpTuples_cons_same] using ih

/-- A proper extension of a list is strictly greater. -/
theorem tlistLt_append (l : List IdentifierTuple) {x : List IdentifierTuple}
    (hx : x ≠ []) : tlistLt l (l ++ x) := by
  induction l with
  | nil =>
    cases x with
    | nil => exact absurd rfl hx
    | cons a as => unfold tlistLt; trivial
  | cons t l ih => exact Or.inr ⟨rfl, ih⟩

/-- If the heads already compare strictly, the tails are irrelevant. -/
theorem tlistLt_cons_of_head {t1 t2 : IdentifierTuple} (h : tupLt t1 t2)
    (l1 l2 : List IdentifierTuple) : tlistLt (t1 :: l1) (t2 :: l2) :=
  Or.inl h

theorem idLt_trans {a b c : Identifier} (h1 : idLt a b) (h2 : idLt b c) :
    idLt a c := tlistLt_trans h1 h2

theorem idLt_asymm {a b : Identifier} (h : idLt a b) : ¬ idLt b a :=
  tlistLt_asymm h

theorem idLt_irrefl (a : Identifier) : ¬ idLt a a := tlistLt_irrefl a.tuples

theorem compareTo_id_lt_iff {i1 i2 : Identifier} :
    i1.compareTo i2 = .lt ↔ idLt i1 i2 := cmpTuples_eq_lt_iff

theorem compareTo_id_eq_iff {i1 i2 : Identifier} :
    i1.compareTo i2 = .eq ↔ i1 = i2 := by
  unfold Identifier.compareTo
  rw [cmpTuples_eq_eq_iff]
  exact ⟨fun h => by cases i1; cases i2; simpa using h, fun h => by rw [h]⟩

theorem compareTo_id_gt_iff {i1 i2 : Identifier} :
    i1.compareTo i2 = .gt ↔ idLt i2 i1 := cmpTuples_eq_gt_iff

theorem lastTuple_fromBase (id : Identifier) (o : Int) :
    (id.fromBase o).lastTuple = id.lastTuple.fromBase o := by
  unfold Identifier.fromBase Identifier.lastTuple
  rw [List.getLastD_concat]

theorem lastOffset_fromBase (id : Identifier) (o : Int) :
    (id.fromBase o).lastOffset = o := by
  unfold Identifier.lastOffset
  rw [show (id.fromBase o).tuples.getLastD defaultTuple = (id.fromBase o).lastTuple from rfl,
    lastTuple_fromBase]
  rfl

theorem fromBase_self {id : Identifier} (h : id.tuples ≠ []) :
    id.fromBase id.lastOffset = id := by
  unfold Identifier.fromBase Identifier.lastOffset Identifier.lastTuple
  cases id with
  | mk l =>
    congr 1
    simp only
    have h1 : l.getLastD defaultTuple = l.getLast h := List.getLastD_eq_getLast? _ _ ▸ by
      rw [List.getLast?_eq_getLast l h]; rfl
    rw [h1]
    have : (l.getLast h).fromBase (l.getLast h).offset = l.getLast h := rfl
    rw [this]
    exact List.dropLast_concat_getLast h

theorem fromBase_fromBase {id : Identifier} (a b : Int) :
    (id.fromBase a).fromBase b = id.fromBase b := by
  unfold Identifier.fromBase
  congr 1
  simp only [lastTuple_fromBase]
  have hdl : (⟨id.tuples.dropLast ++ [id.lastTuple.fromBase a]⟩ : Identifier).tuples.dropLast
      = id.tuples.dropLast := by
    simp [List.dropLast_concat]
  rw [show (Identifier.mk (id.tuples.dropLast ++ [id.lastTuple.fromBase a])).lastTuple
      = id.lastTuple.fromBase a from lastTuple_fromBase id a, hdl]
  rfl

/-- At exit of the `id1`-exhausted loop, the gap between the stopping tuples
is at least 2. -/
theorem cbpLoopA_gap : ∀ l2 : List IdentifierTuple,
    (cbpLoopA l2).2.2.random - (cbpLoopA l2).2.1.random ≥ 2
  | [] => by simp [cbpLoopA, MIN_TUPLE, MAX_TUPLE, INT32_TOP, INT32_BOTTOM]
  | t2 :: l2 => by
    by_cases h : t2.random - MIN_TUPLE.random < 2
    · simpa [cbpLoopA, h] using cbpLoopA_gap l2
    · simpa [cbpLoopA, h] using by omega

/-- At exit of the `id2`-exhausted loop, the gap between the stopping tuples
is at least 2. -/
theorem cbpLoopB_gap : ∀ l1 : List IdentifierTuple,
    (cbpLoopB l1).2.2.random - (cbpLoopB l1).2.1.random ≥ 2
  | [] => by simp [cbpLoopB, MIN_TUPLE, MAX_TUPLE, INT32_TOP, INT32_BOTTOM]
  | t1 :: l1 => by
    by_cases h : MAX_TUPLE.random - t1.random < 2
    · simpa [cbpLoopB, h] using cbpLoopB_gap l1
    · simpa [cbpLoopB, h] using by omega

/-- At exit the gap between the stopping tuples is at least 2, so the open
draw interval is nonempty. -/
theorem cbpLoop_gap : ∀ l1 l2 : List IdentifierTuple,
    (cbpLoop l1 l2).2.2.random - (cbpLoop l1 l2).2.1.random ≥ 2
  | [], l2 => cbpLoopA_gap l2
  | _ :: _, [] => cbpLoopB_gap _
  | t1 :: l1, t2 :: l2 => by
    by_cases h : t2.random - t1.random < 2
    · simpa [cbpLoop, h] using cbpLoop_gap l1 l2
    · simpa [cbpLoop, h] using by omega

/-- Lower-bound lemma, `id2`-exhausted case: vacuous ordering over `[]` never
arises since the conclusion concerns `l1`. -/
theorem cbpLoopB_lower : ∀ (l1 : List IdentifierTuple) (nt : IdentifierTuple),
    (cbpLoopB l1).2.1.random < nt.random →
    tlistLt l1 ((cbpLoopB l1).1 ++ [nt])
  | [], nt => by
    intro _
    simp only [cbpLoopB, List.nil_append]
    unfold tlistLt
    trivial
  | t1 :: l1, nt => by
    intro hr
    by_cases h : MAX_TUPLE.random - t1.random < 2 <;>
      simp only [cbpLoopB, h, if_true, if_false, List.cons_append, List.nil_append]
    · simp only [cbpLoopB, h, if_true] at hr
      exact Or.inr ⟨rfl, cbpLoopB_lower l1 nt hr⟩
    · simp only [cbpLoopB, h, if_false] at hr
      exact Or.inl (Or.inl hr)

/-- Lower-bound lemma: the generated identifier is strictly greater than
`id1`, for any fresh tuple whose random exceeds the lower stopping bound. -/
theorem cbpLoop_lower : ∀ (l1 l2 : List IdentifierTuple) (nt : IdentifierTuple),
    (cbpLoop l1 l2).2.1.random < nt.random →
    tlistLt l1 ((cbpLoop l1 l2).1 ++ [nt])
  | [], l2, nt => by
    intro _
    show tlistLt [] ((cbpLoopA l2).1 ++ [nt])
    cases hp : (cbpLoopA l2).1 ++ [nt] with
    | nil => exact absurd hp (by simp)
    | cons a as => unfold tlistLt; trivial
  | _ :: _, [], nt => cbpLoopB_lower _ nt
  | t1 :: l1, t2 :: l2, nt => by
    intro hr
    by_cases h : t2.random - t1.random < 2 <;>
      simp only [cbpLoop, h, if_true, if_false, List.cons_append, List.nil_append]
    · simp only [cbpLoop, h, if_true] at hr
      exact Or.inr ⟨rfl, cbpLoop_lower l1 l2 nt hr⟩
    · simp only [cbpLoop, h, if_false] at hr
      exact Or.inl (Or.inl hr)

/-- Upper-bound lemma, `id1`-exhausted case. -/
theorem cbpLoopA_upper : ∀ (l2 : List IdentifierTuple) (nt : IdentifierTuple),
    tlistLt (List.replicate l2.length MIN_TUPLE) l2 →
    nt.random < (cbpLoopA l2).2.2.random →
    tlistLt ((cbpLoopA l2).1 ++ [nt]) l2
  | [], nt => by
    intro hpad _
    exact absurd hpad (by unfold tlistLt; simp)
  | t2 :: l2, nt => by
    intro hpad hr
    rw [show (t2 :: l2).length = l2.length + 1 from rfl, List.replicate_succ] at hpad
    by_cases h : t2.random - MIN_TUPLE.random < 2 <;>
      simp only [cbpLoopA, h, if_true, if_false, List.cons_append, List.nil_append] at hr ⊢
    · rcases hpad with hm | ⟨he, hpad⟩
      · exact Or.inl hm
      · exact Or.inr ⟨he, cbpLoopA_upper l2 nt hpad hr⟩
    · exact Or.inl (Or.inl hr)

/-- Upper-bound lemma: under `padBelow`, the generated identifier is strictly
less than `id2`, for any fresh tuple whose random is below the upper stopping
bound. -/
theorem cbpLoop_upper : ∀ (l1 l2 : List IdentifierTuple) (nt : IdentifierTuple),
    padBelow l1 l2 →
    nt.random < (cbpLoop l1 l2).2.2.random →
    tlistLt ((cbpLoop l1 l2).1 ++ [nt]) l2
  | [], l2, nt => by
    rintro ⟨hlt, hpad⟩ hr
    rcases hpad with hlen | hpad
    · cases l2 with
      | nil => exact absurd hlt (by unfold tlistLt; exact id)
      | cons b bs => simp at hlen
    · exact cbpLoopA_upper l2 nt (by simpa using hpad) hr
  | _ :: _, [], nt => by
    rintro ⟨hlt, -⟩ _
    exact absurd hlt (by unfold tlistLt; exact id)
  | t1 :: l1, t2 :: l2, nt => by
    rintro ⟨hlt, hpad⟩ hr
    by_cases h : t2.random - t1.random < 2 <;>
      simp only [cbpLoop, h, if_true, if_false, List.cons_append, List.nil_append] at hr ⊢
    · rcases hlt with hm | ⟨he, hlt⟩
      · exact Or.inl hm
      · refine Or.inr ⟨he, cbpLoop_upper l1 l2 nt ⟨hlt, ?_⟩ hr⟩
        rcases hpad with hlen | hpad
        · exact Or.inl (by simpa using hlen)
        · simp only [List.length_cons, List.cons_append] at hpad
          rcases hpad with hm | ⟨-, hpad⟩
          · exact absurd hm (he ▸ tupLt_irrefl t1)
          · exact Or.inr (by simpa using hpad)
    · exact Or.inl (Or.inl hr)

/-- Loop characterization, `id1`-exhausted case. -/
theorem cbpLoopA_char : ∀ l2 : List IdentifierTuple,
    ((cbpLoopA l2).2.1 = MIN_TUPLE ∧
     (cbpLoopA l2).2.2 = l2.getD (cbpLoopA l2).1.length MAX_TUPLE) ∧
    ∀ i : Nat, i < (cbpLoopA l2).1.length →
      ((cbpLoopA l2).1.getD i defaultTuple = MIN_TUPLE ∧
       (l2.getD i MAX_TUPLE).random - MIN_TUPLE.random < 2)
  | [] => by simp [cbpLoopA]
  | t2 :: l2 => by
    by_cases h : t2.random - MIN_TUPLE.random < 2 <;>
      simp only [cbpLoopA, h, if_true, if_false]
    · obtain ⟨⟨ha, hb⟩, hpre⟩ := cbpLoopA_char l2
      refine ⟨⟨ha, by simpa using hb⟩, ?_⟩
      intro i hi
      cases i with
      | zero => simpa using h
      | succ j =>
        simp only [List.length_cons, Nat.succ_lt_succ_iff] at hi
        simpa using hpre j hi
    · simp

/-- Loop characterization, `id2`-exhausted case. -/
theorem cbpLoopB_char : ∀ l1 : List IdentifierTuple,
    ((cbpLoopB l1).2.1 = l1.getD (cbpLoopB l1).1.length MIN_TUPLE ∧
     (cbpLoopB l1).2.2 = MAX_TUPLE) ∧
    ∀ i : Nat, i < (cbpLoopB l1).1.length →
      ((cbpLoopB l1).1.getD i defaultTuple = l1.getD i MIN_TUPLE ∧
       (MAX_TUPLE.random - (l1.getD i MIN_TUPLE).random < 2))
  | [] => by simp [cbpLoopB]
  | t1 :: l1 => by
    by_cases h : MAX_TUPLE.random - t1.random < 2 <;>
      simp only [cbpLoopB, h, if_true, if_false]
    · obtain ⟨⟨ha, hb⟩, hpre⟩ := cbpLoopB_char l1
      refine ⟨⟨by simpa using ha, hb⟩, ?_⟩
      intro i hi
      cases i with
      | zero => simpa using h
      | succ j =>
        simp only [List.length_cons, Nat.succ_lt_succ_iff] at hi
        simpa using hpre j hi
    · simp

/-- Characterization of the loop: the pushed prefix consists of the tuples of
`id1` (padded with `MIN_TUPLE`) at every depth where the gap condition
`t2.random - t1.random < 2` held, and the stopping tuples are the padded
tuples at the exit depth. -/
theorem cbpLoop_char : ∀ (l1 l2 : List IdentifierTuple),
    ((cbpLoop l1 l2).2.1 = l1.getD (cbpLoop l1 l2).1.length MIN_TUPLE ∧
     (cbpLoop l1 l2).2.2 = l2.getD (cbpLoop l1 l2).1.length MAX_TUPLE) ∧
    ∀ i : Nat, i < (cbpLoop l1 l2).1.length →
      ((cbpLoop l1 l2).1.getD i defaultTuple = l1.getD i MIN_TUPLE ∧
       (l2.getD i MAX_TUPLE).random - (l1.getD i MIN_TUPLE).random < 2)
  | [], l2 => by
    obtain ⟨⟨ha, hb⟩, hpre⟩ := cbpLoopA_char l2
    exact ⟨⟨by simpa using ha, hb⟩, fun i hi => by simpa using hpre i hi⟩
  | _ :: _, [] => by
    obtain ⟨⟨ha, hb⟩, hpre⟩ := cbpLoopB_char _
    exact ⟨⟨ha, by simpa using hb⟩, fun i hi => by simpa using hpre i hi⟩
  | t1 :: l1, t2 :: l2 => by
    by_cases h : t2.random - t1.random < 2 <;>
      simp only [cbpLoop, h, if_true, if_false]
    · obtain ⟨⟨ha, hb⟩, hpre⟩ := cbpLoop_char l1 l2
      refine ⟨⟨by simpa using ha, by simpa using hb⟩, ?_⟩
      intro i hi
      cases i with
      | zero => simpa using h
      | succ j =>
        simp only [List.length_cons, Nat.succ_lt_succ_iff] at hi
        simpa using hpre j hi
    · simp

/-- Every tuple pushed by the `id1`-exhausted loop is the sentinel. -/
theorem cbpLoopA_mem : ∀ (l2 : List IdentifierTuple) (t : IdentifierTuple),
    t ∈ (cbpLoopA l2).1 → t = MIN_TUPLE
  | [], t => by simp [cbpLoopA]
  | t2 :: l2, t => by
    by_cases h : t2.random - MIN_TUPLE.random < 2 <;>
      simp only [cbpLoopA, h, if_true, if_false]
    · intro ht
      rcases List.mem_cons.mp ht with rfl | ht
      · rfl
      · exact cbpLoopA_mem l2 t ht
    · simp

/-- Every tuple pushed by the `id2`-exhausted loop is a tuple of `id1`. -/
theorem cbpLoopB_mem : ∀ (l1 : List IdentifierTuple) (t : IdentifierTuple),
    t ∈ (cbpLoopB l1).1 → t ∈ l1
  | [], t => by simp [cbpLoopB]
  | t1 :: l1, t => by
    by_cases h : MAX_TUPLE.random - t1.random < 2 <;>
      simp only [cbpLoopB, h, if_true, if_false]
    · intro ht
      rcases List.mem_cons.mp ht with rfl | ht
      · exact List.mem_cons_self t _
      · exact List.mem_cons_of_mem t1 (cbpLoopB_mem l1 t ht)
    · simp

/-- Every tuple pushed by the loop is a tuple of `id1` or the sentinel
`MIN_TUPLE`. -/
theorem cbpLoop_mem : ∀ (l1 l2 : List IdentifierTuple) (t : IdentifierTuple),
    t ∈ (cbpLoop l1 l2).1 → t ∈ l1 ∨ t = MIN_TUPLE
  | [], l2, t => fun ht => Or.inr (cbpLoopA_mem l2 t ht)
  | _ :: _, [], t => fun ht => Or.inl (cbpLoopB_mem _ t ht)
  | t1 :: l1, t2 :: l2, t => by
    by_cases h : t2.random - t1.random < 2 <;>
      simp only [cbpLoop, h, if_true, if_false]
    · intro ht
      rcases List.mem_cons.mp ht with rfl | ht
      · exact Or.inl (List.mem_cons_self t _)
      · rcases cbpLoop_mem l1 l2 t ht with h1 | h2
        · exact Or.inl (List.mem_cons_of_mem t1 h1)
        · exact Or.inr h2
    · simp

/-- C2, counterexample: the claim "for all `id1 < id2`, `id1 <
createBetweenPosition(id1, id2, ...) < id2`" fails when `id2` extends `id1`
by `MIN_TUPLE`. At `id1 = [(0,0,0,0)]`, `id2 = [(0,0,0,0), MIN_TUPLE]` we
have `id1 < id2` and the draw `random = 1` lies strictly inside the loop's
stopping interval, yet the generated identifier is strictly greater than
`id2`: the loop copies `id1`'s tuple and a padding `MIN_TUPLE`, reproducing
all of `id2`, before appending the fresh tuple. -/
theorem claim_C2_counterexample :
    idLt (⟨[⟨0, 0, 0, 0⟩]⟩ : Identifier) (⟨[⟨0, 0, 0, 0⟩, MIN_TUPLE]⟩ : Identifier) ∧
    (cbpBounds (some ⟨[⟨0, 0, 0, 0⟩]⟩) (some ⟨[⟨0, 0, 0, 0⟩, MIN_TUPLE]⟩)).1.random < 1 ∧
    1 < (cbpBounds (some ⟨[⟨0, 0, 0, 0⟩]⟩) (some ⟨[⟨0, 0, 0, 0⟩, MIN_TUPLE]⟩)).2.random ∧
    ¬ idLt (createBetweenPosition (some ⟨[⟨0, 0, 0, 0⟩]⟩)
        (some ⟨[⟨0, 0, 0, 0⟩, MIN_TUPLE]⟩) 7 3 1)
      (⟨[⟨0, 0, 0, 0⟩, MIN_TUPLE]⟩ : Identifier) := by
  refine ⟨by decide, by decide, by decide, by decide⟩

/-- C2, amended: for all `id1 < id2` (either bound possibly `null`) such
that, in addition, `id1`'s tuples padded with `MIN_TUPLE` to `id2`'s length
remain strictly below `id2`'s tuples (the `padBelow` side condition, which
the counterexample forces), and for every draw `random` strictly inside the
loop's stopping interval, the generated identifier lies strictly between
`id1` and `id2`. -/
theorem claim_C2_amended (id1 id2 : Option Identifier)
    (replicaNumber clock random : Int)
    (hlow : (cbpBounds id1 id2).1.random < random)
    (hhigh : random < (cbpBounds id1 id2).2.random)
    (hpad : ∀ i2 : Identifier, id2 = some i2 → padBelow (tuplesOf id1) i2.tuples) :
    (∀ i1 : Identifier, id1 = some i1 →
      idLt i1 (createBetweenPosition id1 id2 replicaNumber clock random)) ∧
    (∀ i2 : Identifier, id2 = some i2 →
      idLt (createBetweenPosition id1 id2 replicaNumber clock random) i2) := by
  constructor
  · rintro i1 rfl
    exact cbpLoop_lower i1.tuples (tuplesOf id2) ⟨random, replicaNumber, clock, 0⟩ hlow
  · rintro i2 rfl
    exact cbpLoop_upper (tuplesOf id1) i2.tuples ⟨random, replicaNumber, clock, 0⟩
      (hpad i2 rfl) hhigh

/-- C2, witness: the amended theorem applied at `id1 = [(5,0,0,0)]`,
`id2 = [(9,0,0,0)]`, `replicaNumber = 7`, `clock = 3`, `random = 7`. -/
theorem claim_C2_witness :
    idLt (⟨[⟨5, 0, 0, 0⟩]⟩ : Identifier)
      (createBetweenPosition (some ⟨[⟨5, 0, 0, 0⟩]⟩) (some ⟨[⟨9, 0, 0, 0⟩]⟩) 7 3 7) ∧
    idLt (createBetweenPosition (some ⟨[⟨5, 0, 0, 0⟩]⟩) (some ⟨[⟨9, 0, 0, 0⟩]⟩) 7 3 7)
      (⟨[⟨9, 0, 0, 0⟩]⟩ : Identifier) := by
  have h := claim_C2_amended (some ⟨[⟨5, 0, 0, 0⟩]⟩) (some ⟨[⟨9, 0, 0, 0⟩]⟩) 7 3 7
    (by decide) (by decide)
    (by intro i2 h2; injection h2 with h2; rw [← h2]; decide)
  exact ⟨h.1 _ rfl, h.2 _ rfl⟩

/-- C6, counterexample: the uniqueness part of the claim ("the final tuple is
the only tuple of the result carrying the caller's `(replicaNumber, clock)`")
fails when a tuple of `id1` copied by the loop already carries that pair. At
`id1 = [(5,7,3,0)]`, `id2 = [(6,9,9,9)]`, caller `(7,3)` and draw `0` inside
the stopping interval, the result `[(5,7,3,0), (0,7,3,0)]` has two tuples
carrying `(7,3)`. -/
theorem claim_C6_counterexample :
    idLt (⟨[⟨5, 7, 3, 0⟩]⟩ : Identifier) (⟨[⟨6, 9, 9, 9⟩]⟩ : Identifier) ∧
    (cbpBounds (some ⟨[⟨5, 7, 3, 0⟩]⟩) (some ⟨[⟨6, 9, 9, 9⟩]⟩)).1.random < 0 ∧
    0 < (cbpBounds (some ⟨[⟨5, 7, 3, 0⟩]⟩) (some ⟨[⟨6, 9, 9, 9⟩]⟩)).2.random ∧
    ((createBetweenPosition (some ⟨[⟨5, 7, 3, 0⟩]⟩) (some ⟨[⟨6, 9, 9, 9⟩]⟩) 7 3 0).tuples.countP
      (fun t => decide (t.replicaNumber = 7 ∧ t.clock = 3))) ≠ 1 := by
  refine ⟨by decide, by decide, by decide, by decide⟩

/-- C6, amended: the result of `createBetweenPosition` is the loop prefix
followed by exactly one fresh tuple `(random, replicaNumber, clock, 0)`; the
prefix consists of the tuples of `id1` (padded with `MIN_TUPLE`) at all
depths where `t2.random - t1.random < 2` held for the padded tuples of `id1`
and `id2`, the loop stops at the first depth where the gap admits an integer,
and — provided no tuple of `id1` carries the caller's `(replicaNumber,
clock)` and `(replicaNumber, clock) ≠ (0, 0)` (the pair carried by the
padding `MIN_TUPLE`, which the counterexample forces us to exclude) — the
final tuple is the only tuple of the result carrying that pair. -/
theorem claim_C6_amended (id1 id2 : Option Identifier)
    (replicaNumber clock random : Int)
    (h1 : ∀ t ∈ tuplesOf id1, ¬ (t.replicaNumber = replicaNumber ∧ t.clock = clock))
    (h0 : ¬ (replicaNumber = 0 ∧ clock = 0)) :
    (createBetweenPosition id1 id2 replicaNumber clock random).tuples
      = (cbpLoop (tuplesOf id1) (tuplesOf id2)).1
          ++ [⟨random, replicaNumber, clock, 0⟩] ∧
    (∀ i : Nat, i < (cbpLoop (tuplesOf id1) (tuplesOf id2)).1.length →
      ((cbpLoop (tuplesOf id1) (tuplesOf id2)).1.getD i defaultTuple
          = (tuplesOf id1).getD i MIN_TUPLE ∧
        ((tuplesOf id2).getD i MAX_TUPLE).random
          - ((tuplesOf id1).getD i MIN_TUPLE).random < 2)) ∧
    (cbpBounds id1 id2).1
      = (tuplesOf id1).getD (cbpLoop (tuplesOf id1) (tuplesOf id2)).1.length MIN_TUPLE ∧
    (cbpBounds id1 id2).2
      = (tuplesOf id2).getD (cbpLoop (tuplesOf id1) (tuplesOf id2)).1.length MAX_TUPLE ∧
    ¬ ((cbpBounds id1 id2).2.random - (cbpBounds id1 id2).1.random < 2) ∧
    (createBetweenPosition id1 id2 replicaNumber clock random).tuples.filter
        (fun t => decide (t.replicaNumber = replicaNumber ∧ t.clock = clock))
      = [⟨random, replicaNumber, clock, 0⟩] := by
  obtain ⟨⟨ha, hb⟩, hpre⟩ := cbpLoop_char (tuplesOf id1) (tuplesOf id2)
  refine ⟨rfl, hpre, ha, hb, ?_, ?_⟩
  · have := cbpLoop_gap (tuplesOf id1) (tuplesOf id2)
    simp only [cbpBounds]
    omega
  · show ((cbpLoop (tuplesOf id1) (tuplesOf id2)).1
        ++ [(⟨random, replicaNumber, clock, 0⟩ : IdentifierTuple)]).filter
        (fun t => decide (t.replicaNumber = replicaNumber ∧ t.clock = clock))
      = [(⟨random, replicaNumber, clock, 0⟩ : IdentifierTuple)]
    rw [List.filter_append]
    have hnil : (cbpLoop (tuplesOf id1) (tuplesOf id2)).1.filter
        (fun t => decide (t.replicaNumber = replicaNumber ∧ t.clock = clock)) = [] := by
      rw [List.filter_eq_nil_iff]
      intro t ht
      rcases cbpLoop_mem (tuplesOf id1) (tuplesOf id2) t ht with hm | rfl
      · simpa using h1 t hm
      · simp only [MIN_TUPLE, decide_eq_true_eq]
        intro hc
        exact h0 ⟨hc.1.symm, hc.2.symm⟩
    rw [hnil]
    simp

/-- C6, witness: the amended theorem applied at `id1 = [(5,0,0,0)]`,
`id2 = [(9,0,0,0)]`, caller `(7,3)`, draw `7`: the fresh tuple is the only
one carrying `(7,3)`. -/
theorem claim_C6_witness :
    (createBetweenPosition (some ⟨[⟨5, 0, 0, 0⟩]⟩) (some ⟨[⟨9, 0, 0, 0⟩]⟩) 7 3 7).tuples.filter
        (fun t => decide (t.replicaNumber = 7 ∧ t.clock = 3))
      = [⟨7, 7, 3, 0⟩] :=
  (claim_C6_amended (some ⟨[⟨5, 0, 0, 0⟩]⟩) (some ⟨[⟨9, 0, 0, 0⟩]⟩) 7 3 7
    (by decide) (by decide)).2.2.2.2.2

/-- C9: starting from a block whose constructor precondition `0 ≤ nbElement`
holds, every sequence of `addBlock`/`delBlock` calls that respects the
operations' preconditions (positive added length; positive deleted count not
exceeding the current `nbElement`) leaves `nbElement` non-negative. -/
theorem claim_C9 (b : LogootSBlock) (ops : List BlockOp)
    (hb : 0 ≤ b.nbElement) (hv : validBlockOps b ops) :
    0 ≤ (applyBlockOps b ops).nbElement := by
  induction ops generalizing b with
  | nil => exact hb
  | cons op rest ih =>
    cases op with
    | add pos length =>
      obtain ⟨hl, hv⟩ := hv
      exact ih (b.addBlock pos length) (by simp [LogootSBlock.addBlock]; omega) hv
    | del nbElt =>
      obtain ⟨hn, hle, hv⟩ := hv
      exact ih (b.delBlock nbElt) (by simp [LogootSBlock.delBlock]; omega) hv

/-- C9, witness: a block of 2 elements, grown by 3 and then shrunk by 4,
keeps a non-negative count. -/
theorem claim_C9_witness :
    0 ≤ (applyBlockOps ⟨⟨⟨[⟨1, 2, 3, 0⟩]⟩, 1⟩, 2⟩
      [BlockOp.add 1 3, BlockOp.del 4]).nbElement :=
  claim_C9 ⟨⟨⟨[⟨1, 2, 3, 0⟩]⟩, 1⟩, 2⟩ [BlockOp.add 1 3, BlockOp.del 4]
    (by decide) (by decide)

theorem tlistLt_connex : ∀ {l1 l2 : List IdentifierTuple},
    l1 ≠ l2 → tlistLt l1 l2 ∨ tlistLt l2 l1 := by
  intro l1 l2 hne
  rcases h : cmpTuples l1 l2 with _ | _ | _
  · exact Or.inl (cmpTuples_eq_lt_iff.mp h)
  · exact absurd (cmpTuples_eq_eq_iff.mp h) hne
  · exact Or.inr (cmpTuples_eq_gt_iff.mp h)

theorem idLt_connex {i1 i2 : Identifier} (hne : i1 ≠ i2) :
    idLt i1 i2 ∨ idLt i2 i1 := by
  refine tlistLt_connex (fun he => hne ?_)
  cases i1; cases i2; simpa using he

theorem idLe.trans_lt {a b c : Identifier} (h1 : idLe a b) (h2 : idLt b c) :
    idLt a c := by
  rcases h1 with h1 | rfl
  · exact idLt_trans h1 h2
  · exact h2

theorem idLt_trans_le {a b c : Identifier} (h1 : idLt a b) (h2 : idLe b c) :
    idLt a c := by
  rcases h2 with h2 | rfl
  · exact idLt_trans h1 h2
  · exact h1

/-- Decomposition of a list around a known prefix and the element after it. -/
theorem eq_append_getD_drop {p l : List IdentifierTuple} (hp : p <+: l)
    (hlen : p.length < l.length) :
    l = p ++ l.getD p.length defaultTuple :: l.drop (p.length + 1) := by
  obtain ⟨rest, rfl⟩ := hp
  cases rest with
  | nil => simp at hlen
  | cons a as =>
    rw [List.getD_eq_getElem?_getD, List.getElem?_append_right (le_refl p.length)]
    simp

/-- Comparison against a longer list with the same head block: a proper
extension is greater (identifier form). -/
theorem idLt_of_append {i : Identifier} (x : List IdentifierTuple) (hx : x ≠ []) :
    idLt i ⟨i.tuples ++ x⟩ := tlistLt_append i.tuples hx

/-- `toIds` has `lengthN` elements. -/
theorem toIds_length (iv : IdentifierInterval) : iv.toIds.length = iv.lengthN := by
  unfold IdentifierInterval.toIds
  rw [List.length_map, List.length_range]

/-- The `k`-th identifier of an interval. -/
theorem toIds_getD (iv : IdentifierInterval) (k : Nat) (hk : k < iv.lengthN) :
    iv.toIds.getD k defaultId = iv.idBegin.fromBase (iv.beginOffset + k) := by
  unfold IdentifierInterval.toIds
  rw [List.getD_eq_getElem?_getD, List.getElem?_map, List.getElem?_range hk]
  rfl

/-- In a well-formed interval the first identifier is `idBegin`. -/
theorem toIds_getD_zero {iv : IdentifierInterval} (hne : iv.idBegin.tuples ≠ [])
    (hle : iv.beginOffset ≤ iv.endOffset) :
    iv.toIds.getD 0 defaultId = iv.idBegin := by
  rw [toIds_getD iv 0 (by unfold IdentifierInterval.lengthN IdentifierInterval.lengthInt; omega)]
  simpa using fromBase_self hne

theorem lengthN_cast {iv : IdentifierInterval} (h : iv.beginOffset ≤ iv.endOffset) :
    (iv.lengthN : Int) = iv.lengthInt := by
  unfold IdentifierInterval.lengthN
  exact Int.toNat_of_nonneg (by unfold IdentifierInterval.lengthInt; omega)

theorem sum_lengthN_cast (ivs : List IdentifierInterval)
    (h : ∀ iv ∈ ivs, iv.beginOffset ≤ iv.endOffset) :
    ((ivs.map IdentifierInterval.lengthN).sum : Int)
      = (ivs.map IdentifierInterval.lengthInt).sum := by
  induction ivs with
  | nil => simp
  | cons iv ivs ih =>
    simp only [List.map_cons, List.sum_cons, Nat.cast_add]
    rw [lengthN_cast (h iv (List.mem_cons_self iv ivs)),
      ih (fun x hx => h x (List.mem_cons_of_mem iv hx))]

theorem natIdx_cast {rm : RenamingMap} (h : rm.wf) (m : Nat) :
    ((rm.natIdx m : Nat) : Int) = rm.idxOf m := by
  unfold RenamingMap.natIdx RenamingMap.idxOf
  exact sum_lengthN_cast _ (fun iv hiv => (h.2.1 iv (List.mem_of_mem_take hiv)).2)

theorem flatten_toIds_length (ivs : List IdentifierInterval) :
    ((ivs.map IdentifierInterval.toIds).flatten).length
      = (ivs.map IdentifierInterval.lengthN).sum := by
  induction ivs with
  | nil => simp
  | cons iv ivs ih => simp [ih, toIds_length]

/-- Indexing into the flattened renamed identifiers: position
`natIdx m + k` holds the `k`-th identifier of the `m`-th interval. -/
theorem flatten_toIds_getD : ∀ (ivs : List IdentifierInterval) (m k : Nat),
    m < ivs.length → k < (ivs.getD m defaultInterval).lengthN →
    ((ivs.map IdentifierInterval.toIds).flatten).getD
        ((((ivs.take m).map IdentifierInterval.lengthN).sum) + k) defaultId
      = (ivs.getD m defaultInterval).idBegin.fromBase
          ((ivs.getD m defaultInterval).beginOffset + k)
  | [], m, k => by simp
  | iv :: ivs, 0, k => by
    intro _ hk
    simp only [List.getD_cons_zero] at hk ⊢
    rw [List.take_zero, List.map_nil, List.sum_nil, Nat.zero_add, List.map_cons,
      List.flatten_cons, List.getD_eq_getElem?_getD,
      List.getElem?_append_left (by rw [toIds_length]; exact hk)]
    rw [← List.getD_eq_getElem?_getD]
    exact toIds_getD iv k hk
  | iv :: ivs, m + 1, k => by
    intro hm hk
    simp only [List.length_cons, Nat.succ_lt_succ_iff] at hm
    simp only [List.getD_cons_succ] at hk ⊢
    simp only [List.take_succ_cons, List.map_cons, List.sum_cons, List.flatten_cons]
    rw [List.getD_eq_getElem?_getD,
      List.getElem?_append_right (by rw [toIds_length]; omega)]
    rw [toIds_length]
    rw [show iv.lengthN + ((ivs.take m).map IdentifierInterval.lengthN).sum + k
        - iv.lengthN = ((ivs.take m).map IdentifierInterval.lengthN).sum + k from by omega]
    rw [← List.getD_eq_getElem?_getD]
    exact flatten_toIds_getD ivs m k hm hk

theorem rids_length_sum (rm : RenamingMap) :
    rm.renamedIds.length = ((rm.renamedIdIntervals).map IdentifierInterval.lengthN).sum :=
  flatten_toIds_length rm.renamedIdIntervals

theorem rids_length_int {rm : RenamingMap} (h : rm.wf) :
    (rm.renamedIds.length : Int) = rm.maxOffset + 1 := by
  rw [rids_length_sum rm, sum_lengthN_cast _ (fun iv hiv => (h.2.1 iv hiv).2)]
  unfold RenamingMap.maxOffset
  ring

theorem rids_getD {rm : RenamingMap} (h : rm.wf) (m k : Nat)
    (hm : m < rm.renamedIdIntervals.length)
    (hk : k < (rm.renamedIdIntervals.getD m defaultInterval).lengthN) :
    rm.renamedIds.getD (rm.natIdx m + k) defaultId
      = (rm.renamedIdIntervals.getD m defaultInterval).idBegin.fromBase
          ((rm.renamedIdIntervals.getD m defaultInterval).beginOffset + k) :=
  flatten_toIds_getD rm.renamedIdIntervals m k hm hk

theorem natIdx_zero (rm : RenamingMap) : rm.natIdx 0 = 0 := by
  unfold RenamingMap.natIdx
  simp

theorem natIdx_succ {rm : RenamingMap} (m : Nat)
    (hm : m < rm.renamedIdIntervals.length) :
    rm.natIdx (m + 1)
      = rm.natIdx m + (rm.renamedIdIntervals.getD m defaultInterval).lengthN := by
  unfold RenamingMap.natIdx
  rw [List.take_succ, List.map_append, List.sum_append]
  congr 1
  rw [List.getElem?_eq_getElem hm]
  simp [List.getD_eq_getElem?_getD, List.getElem?_eq_getElem hm]

theorem natIdx_full {rm : RenamingMap} :
    rm.natIdx rm.renamedIdIntervals.length = rm.renamedIds.length := by
  unfold RenamingMap.natIdx
  rw [List.take_length, rids_length_sum]

theorem natIdx_le_of_le {rm : RenamingMap} {m n : Nat} (hmn : m ≤ n) :
    rm.natIdx m ≤ rm.natIdx n := by
  unfold RenamingMap.natIdx
  rw [← List.take_append_drop m (rm.renamedIdIntervals.take n), List.take_take,
    min_eq_left hmn, List.map_append, List.sum_append]
  omega

theorem rids_first {rm : RenamingMap} (h : rm.wf) :
    rm.renamedIds.getD 0 defaultId = rm.firstId := by
  have h0 : 0 < rm.renamedIdIntervals.length := List.length_pos_of_ne_nil h.1
  have hiv := h.2.1 (rm.renamedIdIntervals.getD 0 defaultInterval)
    (by rw [List.getD_eq_getElem?_getD, List.getElem?_eq_getElem h0]; exact List.getElem_mem h0)
  have := rids_getD h 0 0 h0
    (by unfold IdentifierInterval.lengthN IdentifierInterval.lengthInt; omega)
  rw [natIdx_zero] at this
  simp only [Nat.add_zero, Nat.cast_zero, Int.add_zero] at this
  rw [this]
  unfold RenamingMap.firstId IdentifierInterval.beginOffset
  rw [fromBase_self hiv.1]
  congr 1
  cases hcase : rm.renamedIdIntervals with
  | nil => exact absurd hcase h.1
  | cons a as => rfl

theorem getD_eq_getLastD {l : List IdentifierInterval} (h : l ≠ []) :
    l.getD (l.length - 1) defaultInterval = l.getLastD defaultInterval := by
  rw [List.getLastD_eq_getLast?, List.getLast?_eq_getElem?,
    List.getD_eq_getElem?_getD]

theorem rids_last {rm : RenamingMap} (h : rm.wf) :
    rm.renamedIds.getD (rm.renamedIds.length - 1) defaultId = rm.lastId := by
  have h0 : 0 < rm.renamedIdIntervals.length := List.length_pos_of_ne_nil h.1
  have hmem : rm.renamedIdIntervals.getD (rm.renamedIdIntervals.length - 1)
      defaultInterval ∈ rm.renamedIdIntervals := by
    rw [List.getD_eq_getElem?_getD, List.getElem?_eq_getElem (by omega)]
    exact List.getElem_mem _
  have hiv := h.2.1 _ hmem
  have hlen1 : 1 ≤ (rm.renamedIdIntervals.getD (rm.renamedIdIntervals.length - 1)
      defaultInterval).lengthN := by
    unfold IdentifierInterval.lengthN IdentifierInterval.lengthInt
    omega
  have hfull : rm.natIdx rm.renamedIdIntervals.length = rm.renamedIds.length :=
    natIdx_full
  have hsucc := @natIdx_succ rm (rm.renamedIdIntervals.length - 1) (by omega)
  rw [show rm.renamedIdIntervals.length - 1 + 1 = rm.renamedIdIntervals.length
    from by omega] at hsucc
  have hg := rids_getD h (rm.renamedIdIntervals.length - 1)
    ((rm.renamedIdIntervals.getD (rm.renamedIdIntervals.length - 1)
      defaultInterval).lengthN - 1) (by omega) (by omega)
  rw [show rm.natIdx (rm.renamedIdIntervals.length - 1)
      + ((rm.renamedIdIntervals.getD (rm.renamedIdIntervals.length - 1)
        defaultInterval).lengthN - 1) = rm.renamedIds.length - 1 from by omega] at hg
  rw [hg]
  unfold RenamingMap.lastId IdentifierInterval.idEnd
  rw [← getD_eq_getLastD h.1]
  congr 1
  have := lengthN_cast hiv.2
  unfold IdentifierInterval.lengthInt at this
  unfold IdentifierInterval.beginOffset at this ⊢
  omega

theorem rids_sorted_getD {rm : RenamingMap} (h : rm.wf) {i j : Nat}
    (hij : i < j) (hj : j < rm.renamedIds.length) :
    idLt (rm.renamedIds.getD i defaultId) (rm.renamedIds.getD j defaultId) := by
  have hp := (@List.pairwise_iff_getElem Identifier idLt rm.renamedIds).mp h.2.2 i j (by omega) hj hij
  rw [List.getD_eq_getElem?_getD, List.getElem?_eq_getElem (by omega : i < rm.renamedIds.length),
    List.getD_eq_getElem?_getD, List.getElem?_eq_getElem hj]
  exact hp

theorem rids_ne_nil {rm : RenamingMap} (h : rm.wf) : rm.renamedIds ≠ [] := by
  intro hn
  have h0 : 0 < rm.renamedIdIntervals.length := List.length_pos_of_ne_nil h.1
  have hlen := rids_length_sum rm
  rw [hn] at hlen
  cases hc : rm.renamedIdIntervals with
  | nil => exact h.1 hc
  | cons iv ivs =>
    have hmem : iv ∈ rm.renamedIdIntervals := by rw [hc]; exact List.mem_cons_self iv ivs
    have hiv := h.2.1 iv hmem
    have h1 : 1 ≤ iv.lengthN := by
      unfold IdentifierInterval.lengthN IdentifierInterval.lengthInt
      omega
    rw [hc] at hlen
    simp only [List.map_cons, List.sum_cons, List.length_nil] at hlen
    omega

theorem idxOf_zero (rm : RenamingMap) : rm.idxOf 0 = 0 := by
  unfold RenamingMap.idxOf
  simp

theorem idxOf_succ {rm : RenamingMap} (m : Nat)
    (hm : m < rm.renamedIdIntervals.length) :
    rm.idxOf (m + 1)
      = rm.idxOf m + (rm.renamedIdIntervals.getD m defaultInterval).lengthInt := by
  unfold RenamingMap.idxOf
  rw [List.take_succ, List.map_append, List.sum_append]
  congr 1
  rw [List.getElem?_eq_getElem hm]
  simp [List.getD_eq_getElem?_getD, List.getElem?_eq_getElem hm]

theorem idxOf_full {rm : RenamingMap} (h : rm.wf) :
    rm.idxOf rm.renamedIdIntervals.length = rm.maxOffset + 1 := by
  unfold RenamingMap.idxOf RenamingMap.maxOffset
  rw [List.take_length]
  ring

theorem idxOf_mono {rm : RenamingMap} (h : rm.wf) {m n : Nat} (hmn : m ≤ n) :
    rm.idxOf m ≤ rm.idxOf n := by
  rw [← natIdx_cast h m, ← natIdx_cast h n]
  exact_mod_cast natIdx_le_of_le hmn

/-- Correctness of the binary-search loop on a well-formed map: with the
search invariants satisfied, it returns the interval containing `idx` and
the offset of `idx` within it. -/
theorem fpfiGo_spec {rm : RenamingMap} (h : rm.wf) (idx : Int) :
    ∀ (fuel l r : Nat), l ≤ r → r ≤ rm.renamedIdIntervals.length →
    r - l < fuel → rm.idxOf l ≤ idx → idx < rm.idxOf r →
    ∃ m : Nat, m < rm.renamedIdIntervals.length ∧
      rm.idxOf m ≤ idx ∧ idx < rm.idxOf (m + 1) ∧
      rm.fpfiGo idx fuel l r = some (m, idx - rm.idxOf m
        + (rm.renamedIdIntervals.getD m defaultInterval).beginOffset)
  | 0, l, r => by omega
  | fuel + 1, l, r => by
    intro hlr hrlen hfuel hl hr
    have hlner : l ≠ r := by
      rintro rfl
      omega
    have hltr : l < r := by omega
    have hmlt : (l + r) / 2 < r := by omega
    have hmge : l ≤ (l + r) / 2 := by omega
    have hmlen : (l + r) / 2 < rm.renamedIdIntervals.length := by omega
    simp only [RenamingMap.fpfiGo, if_pos hlr, if_pos hmlen]
    by_cases h1 : rm.idxOf ((l + r) / 2)
        + (rm.renamedIdIntervals.getD ((l + r) / 2) defaultInterval).lengthInt ≤ idx
    · rw [if_pos h1]
      have h1m : rm.idxOf ((l + r) / 2 + 1) ≤ idx := by
        rw [idxOf_succ _ hmlen]
        exact h1
      exact fpfiGo_spec h idx fuel ((l + r) / 2 + 1) r (by omega) hrlen (by omega) h1m hr
    · rw [if_neg h1]
      by_cases h2 : idx < rm.idxOf ((l + r) / 2)
      · rw [if_pos h2]
        exact fpfiGo_spec h idx fuel l ((l + r) / 2) hmge (by omega) (by omega) hl h2
      · rw [if_neg h2]
        refine ⟨(l + r) / 2, hmlen, by omega, ?_, rfl⟩
        rw [idxOf_succ _ hmlen]
        omega

/-- `findPositionFromIndex` succeeds on indices in `0 .. maxOffset` and
returns the containing interval and in-interval offset. -/
theorem findPositionFromIndex_spec {rm : RenamingMap} (h : rm.wf) (idx : Int)
    (h0 : 0 ≤ idx) (hmax : idx ≤ rm.maxOffset) :
    ∃ m : Nat, m < rm.renamedIdIntervals.length ∧
      rm.idxOf m ≤ idx ∧ idx < rm.idxOf (m + 1) ∧
      rm.findPositionFromIndex idx = some (m, idx - rm.idxOf m
        + (rm.renamedIdIntervals.getD m defaultInterval).beginOffset) := by
  unfold RenamingMap.findPositionFromIndex
  exact fpfiGo_spec h idx (rm.renamedIdIntervals.length + 2) 0
    rm.renamedIdIntervals.length (by omega) (le_refl _) (by omega)
    (by rw [idxOf_zero]; exact h0) (by rw [idxOf_full h]; omega)

/-- `findIdFromIndex(idx)` returns the renamed identifier at new offset
`idx`, for `0 ≤ idx ≤ maxOffset`. -/
theorem findIdFromIndex_spec {rm : RenamingMap} (h : rm.wf) (idx : Int)
    (h0 : 0 ≤ idx) (hmax : idx ≤ rm.maxOffset) :
    rm.findIdFromIndex idx = some (rm.renamedIds.getD idx.toNat defaultId) := by
  obtain ⟨m, hmlen, hml, hmr, heq⟩ := findPositionFromIndex_spec h idx h0 hmax
  unfold RenamingMap.findIdFromIndex
  rw [heq, Option.map_some']
  congr 1
  have hidx0 : 0 ≤ rm.idxOf m := by
    have := idxOf_mono h (Nat.zero_le m)
    rw [idxOf_zero] at this
    omega
  have hsucc := idxOf_succ m hmlen
  have hk : ((idx - rm.idxOf m).toNat : Int) = idx - rm.idxOf m :=
    Int.toNat_of_nonneg (by omega)
  have hkN : (idx - rm.idxOf m).toNat
      < (rm.renamedIdIntervals.getD m defaultInterval).lengthN := by
    have hmem : rm.renamedIdIntervals.getD m defaultInterval ∈ rm.renamedIdIntervals := by
      rw [List.getD_eq_getElem?_getD, List.getElem?_eq_getElem hmlen]
      exact List.getElem_mem _
    have := lengthN_cast (h.2.1 _ hmem).2
    omega
  have hnat : rm.natIdx m + (idx - rm.idxOf m).toNat = idx.toNat := by
    have := natIdx_cast h m
    omega
  rw [← hnat, rids_getD h m _ hmlen hkN]
  congr 1
  omega

/-- `findPredecessorAndSuccessorFromIndex(idx)` returns the renamed
identifiers at new offsets `idx` and `idx + 1`, for `0 ≤ idx < maxOffset`. -/
theorem findPredecessorAndSuccessorFromIndex_spec {rm : RenamingMap} (h : rm.wf)
    (idx : Int) (h0 : 0 ≤ idx) (hmax : idx < rm.maxOffset) :
    rm.findPredecessorAndSuccessorFromIndex idx
      = some (rm.renamedIds.getD idx.toNat defaultId,
          rm.renamedIds.getD (idx.toNat + 1) defaultId) := by
  obtain ⟨m, hmlen, hml, hmr, heq⟩ := findPositionFromIndex_spec h idx h0 (by omega)
  have hmem : rm.renamedIdIntervals.getD m defaultInterval ∈ rm.renamedIdIntervals := by
    rw [List.getD_eq_getElem?_getD, List.getElem?_eq_getElem hmlen]
    exact List.getElem_mem _
  have hiv := h.2.1 _ hmem
  have hcast := lengthN_cast hiv.2
  have hidx0 : 0 ≤ rm.idxOf m := by
    have := idxOf_mono h (Nat.zero_le m)
    rw [idxOf_zero] at this
    omega
  have hsucc := idxOf_succ m hmlen
  have hnat := natIdx_cast h m
  have hkN : (idx - rm.idxOf m).toNat
      < (rm.renamedIdIntervals.getD m defaultInterval).lengthN := by omega
  have hpred : (rm.renamedIdIntervals.getD m defaultInterval).idBegin.fromBase
      (idx - rm.idxOf m + (rm.renamedIdIntervals.getD m defaultInterval).beginOffset)
      = rm.renamedIds.getD idx.toNat defaultId := by
    have hnatidx : rm.natIdx m + (idx - rm.idxOf m).toNat = idx.toNat := by omega
    rw [← hnatidx, rids_getD h m _ hmlen hkN]
    congr 1
    omega
  unfold RenamingMap.findPredecessorAndSuccessorFromIndex
  rw [heq, Option.some_bind]
  dsimp only
  unfold IdentifierInterval.lengthInt at hcast hsucc
  by_cases hoff : idx - rm.idxOf m
      + (rm.renamedIdIntervals.getD m defaultInterval).beginOffset
      = (rm.renamedIdIntervals.getD m defaultInterval).endOffset
  · rw [if_neg (not_not_intro hoff)]
    have hm1len : m + 1 < rm.renamedIdIntervals.length := by
      by_contra hc
      have hle : rm.renamedIdIntervals.length ≤ m + 1 := by omega
      have := idxOf_mono h hle
      rw [idxOf_full h] at this
      omega
    rw [if_pos hm1len]
    have hmem1 : rm.renamedIdIntervals.getD (m + 1) defaultInterval
        ∈ rm.renamedIdIntervals := by
      rw [List.getD_eq_getElem?_getD, List.getElem?_eq_getElem hm1len]
      exact List.getElem_mem _
    have hiv1 := h.2.1 _ hmem1
    have hcast1 := lengthN_cast hiv1.2
    have hsucc1 := idxOf_succ (m + 1) hm1len
    have hnat1 := natIdx_cast h (m + 1)
    have hsuccid : (rm.renamedIdIntervals.getD (m + 1) defaultInterval).idBegin
        = rm.renamedIds.getD (idx.toNat + 1) defaultId := by
      have hk1 : (0 : Nat) < (rm.renamedIdIntervals.getD (m + 1) defaultInterval).lengthN := by
        unfold IdentifierInterval.lengthN IdentifierInterval.lengthInt
        omega
      have hnatidx : rm.natIdx (m + 1) + 0 = idx.toNat + 1 := by omega
      rw [← hnatidx, rids_getD h (m + 1) 0 hm1len hk1]
      rw [show ((rm.renamedIdIntervals.getD (m + 1) defaultInterval).beginOffset
          + ((0 : Nat) : Int))
          = (rm.renamedIdIntervals.getD (m + 1) defaultInterval).idBegin.lastOffset
        from by unfold IdentifierInterval.beginOffset; simp]
      rw [fromBase_self hiv1.1]
    rw [hpred, hsuccid]
  · rw [if_pos hoff, fromBase_fromBase, hpred]
    have hkN1 : (idx - rm.idxOf m).toNat + 1
        < (rm.renamedIdIntervals.getD m defaultInterval).lengthN := by omega
    have hnatidx : rm.natIdx m + ((idx - rm.idxOf m).toNat + 1) = idx.toNat + 1 := by omega
    rw [← hnatidx, rids_getD h m _ hmlen hkN1]
    have hoffeq : idx - rm.idxOf m
        + (rm.renamedIdIntervals.getD m defaultInterval).beginOffset + 1
        = (rm.renamedIdIntervals.getD m defaultInterval).beginOffset
          + (((idx - rm.idxOf m).toNat + 1 : Nat) : Int) := by
      push_cast
      omega
    rw [hoffeq]

theorem scanGo_le : ∀ (l : List Identifier) (id : Identifier), scanGo l id ≤ l.length
  | [], _ => by simp [scanGo]
  | r :: rs, id => by
    unfold scanGo
    by_cases hr : idLt id r
    · simp [hr]
    · simpa [hr, Nat.succ_le_succ_iff] using scanGo_le rs id

theorem scanGo_spec : ∀ (l : List Identifier) (id : Identifier),
    (∀ j : Nat, j < scanGo l id → ¬ idLt id (l.getD j defaultId)) ∧
    (scanGo l id = l.length ∨ idLt id (l.getD (scanGo l id) defaultId))
  | [], id => by simp [scanGo]
  | r :: rs, id => by
    unfold scanGo
    by_cases hr : idLt id r
    · simp only [hr, if_true]
      exact ⟨fun j hj => by omega, Or.inr (by simpa using hr)⟩
    · simp only [hr, if_false]
      obtain ⟨h1, h2⟩ := scanGo_spec rs id
      refine ⟨?_, ?_⟩
      · intro j hj
        cases j with
        | zero => simpa using hr
        | succ j => simpa using h1 j (by omega)
      · rcases h2 with h2 | h2
        · exact Or.inl (by simp [h2])
        · exact Or.inr (by simpa using h2)

theorem scanGo_eq : ∀ (l : List Identifier) (id : Identifier) (n : Nat),
    n ≤ l.length →
    (∀ j : Nat, j < n → ¬ idLt id (l.getD j defaultId)) →
    (n = l.length ∨ idLt id (l.getD n defaultId)) →
    scanGo l id = n
  | [], id, n => by
    intro hn _ _
    simp only [List.length_nil, Nat.le_zero] at hn
    simp [scanGo, hn]
  | r :: rs, id, 0 => by
    intro _ _ h3
    rcases h3 with h3 | h3
    · simp at h3
    · unfold scanGo
      simp only [List.getD_cons_zero] at h3
      simp [h3]
  | r :: rs, id, n + 1 => by
    intro hn h2 h3
    unfold scanGo
    have hr : ¬ idLt id r := by simpa using h2 0 (by omega)
    simp only [hr, if_false]
    have := scanGo_eq rs id n (by simpa using hn)
      (fun j hj => by simpa using h2 (j + 1) (by omega))
      (by
        rcases h3 with h3 | h3
        · exact Or.inl (by simpa using h3)
        · exact Or.inr (by simpa using h3))
    omega

theorem renamedIds_getD_mem {rm : RenamingMap} {k : Nat}
    (hk : k < rm.renamedIds.length) :
    rm.renamedIds.getD k defaultId ∈ rm.renamedIds := by
  rw [List.getD_eq_getElem?_getD, List.getElem?_eq_getElem hk]
  exact List.getElem_mem hk

theorem mem_renamedIds_tuples_ne_nil {rm : RenamingMap} (h : rm.wf)
    {idv : Identifier} (hm : idv ∈ rm.renamedIds) : idv.tuples ≠ [] := by
  unfold RenamingMap.renamedIds at hm
  rw [List.mem_flatten] at hm
  obtain ⟨l, hl, hidl⟩ := hm
  rw [List.mem_map] at hl
  obtain ⟨iv, hiv, rfl⟩ := hl
  unfold IdentifierInterval.toIds at hidl
  rw [List.mem_map] at hidl
  obtain ⟨j, _, heq⟩ := hidl
  rw [← heq]
  unfold Identifier.fromBase
  simp

theorem rids_tuples_ne_nil {rm : RenamingMap} (h : rm.wf) {k : Nat}
    (hk : k < rm.renamedIds.length) :
    (rm.renamedIds.getD k defaultId).tuples ≠ [] :=
  mem_renamedIds_tuples_ne_nil h (renamedIds_getD_mem hk)

/-- `renameIds([id])` at a renamed identifier returns the new identifier at
its position: the scan lands exactly on it. -/
theorem renameOne_renamed {rm : RenamingMap} (h : rm.wf) (k : Nat)
    (hk : k < rm.renamedIds.length) :
    rm.renameOne (rm.renamedIds.getD k defaultId)
      = some (rm.renameIdFromIndex (k : Int)) := by
  have hscan : scanGo rm.renamedIds (rm.renamedIds.getD k defaultId) = k + 1 := by
    refine scanGo_eq _ _ (k + 1) (by omega) ?_ ?_
    · intro j hj
      rcases Nat.lt_or_ge j k with hjk | hjk
      · exact idLt_asymm (rids_sorted_getD h hjk hk)
      · rw [show j = k from by omega]
        exact idLt_irrefl _
    · rcases Nat.lt_or_ge (k + 1) rm.renamedIds.length with hk1 | hk1
      · exact Or.inr (rids_sorted_getD h (by omega) hk1)
      · exact Or.inl (by omega)
  unfold RenamingMap.renameOne
  rw [hscan]
  rw [if_neg (by omega)]
  simp only [Nat.add_sub_cancel, if_true]
  congr 2
  push_cast
  ring

/-- `renameIds([id])` for `id < firstId` dispatches to
`renameIdLessThanFirstId`. -/
theorem renameOne_ltFirst {rm : RenamingMap} (h : rm.wf) {id : Identifier}
    (hlt : idLt id rm.firstId) :
    rm.renameOne id = some (rm.renameIdLessThanFirstId id) := by
  have hne := rids_ne_nil h
  have h0 : 0 < rm.renamedIds.length := List.length_pos_of_ne_nil hne
  have hfirst := rids_first h
  have hscan : scanGo rm.renamedIds id = 0 := by
    cases hc : rm.renamedIds with
    | nil => exact absurd hc hne
    | cons r rs =>
      unfold scanGo
      have : r = rm.firstId := by
        rw [← hfirst, hc]
        rfl
      rw [if_pos (this ▸ hlt)]
  unfold RenamingMap.renameOne
  rw [hscan, if_pos rfl]

/-- `renameIds([id])` for `lastId < id` dispatches to
`renameIdGreaterThanLastId`. -/
theorem renameOne_gtLast {rm : RenamingMap} (h : rm.wf) {id : Identifier}
    (hgt : idLt rm.lastId id) :
    rm.renameOne id = some (rm.renameIdGreaterThanLastId id) := by
  have hne := rids_ne_nil h
  have h0 : 0 < rm.renamedIds.length := List.length_pos_of_ne_nil hne
  have hlast := rids_last h
  have hscan : scanGo rm.renamedIds id = rm.renamedIds.length := by
    refine scanGo_eq _ _ _ (le_refl _) ?_ (Or.inl rfl)
    intro j hj
    have hjle : idLe (rm.renamedIds.getD j defaultId)
        (rm.renamedIds.getD (rm.renamedIds.length - 1) defaultId) := by
      rcases Nat.lt_or_ge j (rm.renamedIds.length - 1) with hja | hja
      · exact Or.inl (rids_sorted_getD h hja (by omega))
      · rw [show j = rm.renamedIds.length - 1 from by omega]
        exact Or.inr rfl
    rw [hlast] at hjle
    exact idLt_asymm (hjle.trans_lt hgt)
  unfold RenamingMap.renameOne
  rw [hscan]
  rw [if_neg (by omega)]
  rw [if_neg (by
    rw [hlast]
    intro he
    rw [he] at hgt
    exact idLt_irrefl id hgt)]
  rw [if_pos rfl]

/-- `renameIds([id])` for a concurrent identifier strictly between two
consecutive renamed identifiers dispatches to `renameIdFromPredecessorId`
with the greatest renamed identifier below `id` as predecessor. -/
theorem renameOne_concurrent {rm : RenamingMap} (h : rm.wf) {id : Identifier}
    (k : Nat) (hk1 : k + 1 < rm.renamedIds.length)
    (hlt : idLt (rm.renamedIds.getD k defaultId) id)
    (hub : idLt id (rm.renamedIds.getD (k + 1) defaultId)) :
    rm.renameOne id
      = rm.renameIdFromPredecessorId id (rm.renamedIds.getD k defaultId) (k : Int) := by
  have hscan : scanGo rm.renamedIds id = k + 1 := by
    refine scanGo_eq _ _ (k + 1) (by omega) ?_ (Or.inr hub)
    intro j hj
    have hjle : idLe (rm.renamedIds.getD j defaultId) (rm.renamedIds.getD k defaultId) := by
      rcases Nat.lt_or_ge j k with hja | hja
      · exact Or.inl (rids_sorted_getD h hja (by omega))
      · rw [show j = k from by omega]
        exact Or.inr rfl
    exact idLt_asymm (hjle.trans_lt hlt)
  unfold RenamingMap.renameOne
  rw [hscan]
  rw [if_neg (by omega)]
  simp only [Nat.add_sub_cancel]
  rw [if_neg (by
    intro he
    rw [he] at hlt
    exact idLt_irrefl id hlt)]
  rw [if_neg (by omega)]
  congr 1
  push_cast
  ring

theorem lastTuple_single (t : IdentifierTuple) :
    (⟨[t]⟩ : Identifier).lastTuple = t := rfl

theorem fromBase_single (t : IdentifierTuple) (o : Int) :
    (⟨[t]⟩ : Identifier).fromBase o = ⟨[t.fromBase o]⟩ := rfl

theorem concat_single (t : IdentifierTuple) (y : Identifier) :
    (⟨[t]⟩ : Identifier).concat y = ⟨t :: y.tuples⟩ := rfl

theorem lastOffset_single (t : IdentifierTuple) :
    (⟨[t]⟩ : Identifier).lastOffset = t.offset := rfl

theorem hasBeenRenamed_newId (rm : RenamingMap) (k : Int) (h0 : 0 ≤ k)
    (hk : k ≤ rm.maxOffset) : rm.hasBeenRenamed (rm.renameIdFromIndex k) := by
  unfold RenamingMap.hasBeenRenamed RenamingMap.renameIdFromIndex createAtPosition
    RenamingMap.newFirstId
  refine ⟨⟨rfl, rfl, ?_⟩, ?_, ?_⟩
  · exact ⟨rfl, rfl, rfl⟩
  · rw [lastOffset_single]; exact h0
  · rw [lastOffset_single]; exact hk

theorem not_hasBeenRenamed_concat (rm : RenamingMap) (t : IdentifierTuple)
    {X : List IdentifierTuple} (hX : X ≠ []) :
    ¬ rm.hasBeenRenamed ⟨t :: X⟩ := by
  rintro ⟨⟨hlen, -⟩, -⟩
  unfold RenamingMap.newFirstId createAtPosition at hlen
  simp only [List.length_cons, List.length_singleton, List.length_nil] at hlen
  have hx0 : X.length = 0 := by omega
  exact hX (List.length_eq_zero.mp hx0)

/-- Evaluation of `renameIdFromPredecessorId` when the successor lookup is in
range: the successor is the next renamed identifier. -/
theorem fromPred_eval {rm : RenamingMap} (h : rm.wf) (id pred : Identifier)
    (k : Nat) (hk1 : k + 1 < rm.renamedIds.length) :
    rm.renameIdFromPredecessorId id pred (k : Int) = some (
      if shapeMinTail id pred then
        (rm.renameIdFromIndex (k : Int)).concat (id.getTail (pred.length + 1))
      else if shapeMaxTail id (rm.renamedIds.getD (k + 1) defaultId) then
        (rm.renameIdFromIndex (k : Int)).concat
          (id.getTail ((rm.renamedIds.getD (k + 1) defaultId).length + 1))
      else
        (rm.renameIdFromIndex (k : Int)).concat id) := by
  unfold RenamingMap.renameIdFromPredecessorId
  dsimp only
  unfold RenamingMap.renameIdFromIndex
  by_cases h1 : shapeMinTail id pred
  · rw [if_pos h1, if_pos h1]
  · rw [if_neg h1, if_neg h1]
    have hmaxo : ((k : Int) + 1) ≤ rm.maxOffset := by
      have := rids_length_int h
      omega
    have htn : ((k : Int) + 1).toNat = k + 1 := by omega
    have hfind : rm.findIdFromIndex ((k : Int) + 1)
        = some (rm.renamedIds.getD (k + 1) defaultId) := by
      rw [findIdFromIndex_spec h _ (by omega) hmaxo, htn]
    rw [hfind, Option.map_some']

theorem tupLt_base_offset {r p c o1 o2 : Int} (h : o1 < o2) :
    tupLt ⟨r, p, c, o1⟩ ⟨r, p, c, o2⟩ := by
  unfold tupLt
  dsimp only
  omega

theorem tupLt_base_offset_iff {r p c o1 o2 : Int} :
    tupLt ⟨r, p, c, o1⟩ ⟨r, p, c, o2⟩ ↔ o1 < o2 := by
  unfold tupLt
  dsimp only
  omega

theorem tlistLt_nil_right : ∀ (l : List IdentifierTuple), ¬ tlistLt l []
  | [] => by unfold tlistLt; exact id
  | t :: l => by unfold tlistLt; exact id

/-- `reverseRenameId` of a renamed-space identifier `(newRandom,
replicaNumber, clock, k)` recovers the original renamed identifier. -/
theorem reverseRename_newId {rm : RenamingMap} (h : rm.wf) (k : Int)
    (h0 : 0 ≤ k) (hk : k ≤ rm.maxOffset) :
    rm.reverseRenameId (rm.renameIdFromIndex k)
      = some (rm.renamedIds.getD k.toNat defaultId) := by
  unfold RenamingMap.reverseRenameId
  rw [if_pos (hasBeenRenamed_newId rm k h0 hk)]
  rw [show (rm.renameIdFromIndex k).lastOffset = k from lastOffset_single _]
  exact findIdFromIndex_spec h k h0 hk

/-- Navigation of `reverseRenameId` for an identifier of the form
`(newRandom, replicaNumber, clock, i) · X` with `0 ≤ i < maxOffset` and `X`
nonempty: all boundary zones are skipped and the in-range case applies with
the renamed identifiers at new offsets `i` and `i + 1` as predecessor and
successor. -/
theorem reverseRename_concat {rm : RenamingMap} (h : rm.wf) (i : Int)
    (h0 : 0 ≤ i) (hi : i < rm.maxOffset) {X : List IdentifierTuple} (hX : X ≠ []) :
    rm.reverseRenameId ⟨⟨rm.newRandom, rm.replicaNumber, rm.clock, i⟩ :: X⟩
      = some (
        if idLt ⟨X⟩ (rm.renamedIds.getD i.toNat defaultId) then
          ⟨(rm.renamedIds.getD i.toNat defaultId).tuples ++ MIN_TUPLE :: X⟩
        else if idLt (rm.renamedIds.getD (i.toNat + 1) defaultId) ⟨X⟩ then
          ⟨((rm.renamedIds.getD (i.toNat + 1) defaultId).fromBase
              ((rm.renamedIds.getD (i.toNat + 1) defaultId).lastOffset - 1)).tuples
            ++ MAX_TUPLE :: X⟩
        else ⟨X⟩) := by
  have hcp : rm.newFirstId.fromBase (rm.newFirstId.lastOffset - 1)
      = ⟨[⟨rm.newRandom, rm.replicaNumber, rm.clock, 0 - 1⟩]⟩ := rfl
  have hcs : rm.newLastId.fromBase (rm.newLastId.lastOffset + 1)
      = ⟨[⟨rm.newRandom, rm.replicaNumber, rm.clock, rm.maxOffset + 1⟩]⟩ := rfl
  have hnf : rm.newFirstId = ⟨[⟨rm.newRandom, rm.replicaNumber, rm.clock, 0⟩]⟩ := rfl
  have hnl : rm.newLastId
      = ⟨[⟨rm.newRandom, rm.replicaNumber, rm.clock, rm.maxOffset⟩]⟩ := rfl
  have hcp_lt : idLt (rm.newFirstId.fromBase (rm.newFirstId.lastOffset - 1))
      ⟨⟨rm.newRandom, rm.replicaNumber, rm.clock, i⟩ :: X⟩ := by
    rw [hcp]
    exact Or.inl (tupLt_base_offset (by omega))
  have hlt_nl : idLt (⟨⟨rm.newRandom, rm.replicaNumber, rm.clock, i⟩ :: X⟩ : Identifier)
      rm.newLastId := by
    rw [hnl]
    exact Or.inl (tupLt_base_offset hi)
  have hlt_cs : idLt (⟨⟨rm.newRandom, rm.replicaNumber, rm.clock, i⟩ :: X⟩ : Identifier)
      (rm.newLastId.fromBase (rm.newLastId.lastOffset + 1)) := by
    rw [hcs]
    exact Or.inl (tupLt_base_offset (by omega))
  have hnot_nf : ¬ idLt (⟨⟨rm.newRandom, rm.replicaNumber, rm.clock, i⟩ :: X⟩ : Identifier)
      rm.newFirstId := by
    rw [hnf]
    rintro (hcon | ⟨heq, hcon⟩)
    · rw [tupLt_base_offset_iff] at hcon
      omega
    · exact tlistLt_nil_right X hcon
  unfold RenamingMap.reverseRenameId RenamingMap.minFirstId RenamingMap.maxLastId
    RenamingMap.closestPredecessorOfNewFirstId RenamingMap.closestSuccessorOfNewLastId
  dsimp only
  rw [if_neg (not_hasBeenRenamed_concat rm _ hX)]
  rw [if_neg (by
    rintro (hcon | hcon)
    · by_cases hmf : idLt rm.firstId (rm.newFirstId.fromBase (rm.newFirstId.lastOffset - 1))
      · rw [if_pos hmf] at hcon
        exact idLt_asymm (idLt_trans hmf hcp_lt) hcon
      · rw [if_neg hmf] at hcon
        exact idLt_asymm hcp_lt hcon
    · by_cases hml : idLt rm.newLastId rm.lastId
      · rw [if_pos hml] at hcon
        exact idLt_asymm (idLt_trans hlt_nl hml) hcon
      · rw [if_neg hml] at hcon
        exact idLt_asymm hlt_cs hcon)]
  rw [if_neg hnot_nf]
  rw [if_neg (by
    rintro ⟨-, hcon, -⟩
    exact idLt_asymm hlt_nl hcon)]
  rw [if_neg (by
    rintro ⟨hcon, -⟩
    exact idLt_asymm hlt_nl hcon)]
  rw [findPredecessorAndSuccessorFromIndex_spec h i h0 hi, Option.map_some']
  simp only [Identifier.getTail, List.drop_one, List.tail_cons]

theorem id_eta (id : Identifier) : (⟨id.tuples⟩ : Identifier) = id := rfl

theorem fromBase_length {id : Identifier} (h : id.tuples ≠ []) (o : Int) :
    (id.fromBase o).tuples.length = id.tuples.length := by
  unfold Identifier.fromBase
  simp only [List.length_append, List.length_dropLast, List.length_cons,
    List.length_nil]
  have := List.length_pos.mpr h
  omega

theorem getTail_ne_nil {id : Identifier} {n : Nat} (h : n < id.tuples.length) :
    (id.getTail n).tuples ≠ [] := by
  unfold Identifier.getTail
  simp only [ne_eq, List.drop_eq_nil_iff]
  omega

/-- Round trip of the renaming map on its renamed range: renaming an
identifier `firstId ≤ id ≤ lastId` and reverse-renaming the result recovers
`id`. -/
theorem roundTrip_renamingMap {rm : RenamingMap} (h : rm.wf) {id : Identifier}
    (h1 : idLe rm.firstId id) (h2 : idLe id rm.lastId) :
    (rm.renameOne id).bind rm.reverseRenameId = some id := by
  have hlen := rids_length_int h
  have hne := rids_ne_nil h
  have h0 : 0 < rm.renamedIds.length := List.length_pos_of_ne_nil hne
  by_cases hmem : id ∈ rm.renamedIds
  · obtain ⟨k, hk, hkeq⟩ := List.mem_iff_getElem.mp hmem
    have hgd : rm.renamedIds.getD k defaultId = id := by
      rw [List.getD_eq_getElem?_getD, List.getElem?_eq_getElem hk]
      exact hkeq
    rw [← hgd, renameOne_renamed h k hk, Option.some_bind,
      reverseRename_newId h (k : Int) (by omega) (by omega), Int.toNat_natCast]
  · have hflt : idLt rm.firstId id := by
      rcases h1 with h1 | h1
      · exact h1
      · exfalso
        apply hmem
        rw [← h1, ← rids_first h]
        exact renamedIds_getD_mem h0
    have hllt : idLt id rm.lastId := by
      rcases h2 with h2 | h2
      · exact h2
      · exfalso
        apply hmem
        rw [h2, ← rids_last h]
        exact renamedIds_getD_mem (by omega)
    obtain ⟨hsp1, hsp2⟩ := scanGo_spec rm.renamedIds id
    have hnle := scanGo_le rm.renamedIds id
    have hn1 : 1 ≤ scanGo rm.renamedIds id := by
      rcases Nat.eq_zero_or_pos (scanGo rm.renamedIds id) with hz | hp
      · exfalso
        rcases hsp2 with hh | hh
        · omega
        · rw [hz, rids_first h] at hh
          exact idLt_asymm hflt hh
      · exact hp
    have hnlt : scanGo rm.renamedIds id < rm.renamedIds.length := by
      rcases Nat.lt_or_ge (scanGo rm.renamedIds id) rm.renamedIds.length with hp | hp
      · exact hp
      · exfalso
        have hcon := hsp1 (rm.renamedIds.length - 1) (by omega)
        rw [rids_last h] at hcon
        exact hcon hllt
    have hpredlt : idLt (rm.renamedIds.getD (scanGo rm.renamedIds id - 1) defaultId) id := by
      have hnot := hsp1 (scanGo rm.renamedIds id - 1) (by omega)
      have hneq : rm.renamedIds.getD (scanGo rm.renamedIds id - 1) defaultId ≠ id := by
        intro he
        exact hmem (he ▸ renamedIds_getD_mem (by omega))
      rcases idLt_connex hneq with hc | hc
      · exact hc
      · exact absurd hc hnot
    have hsucclt : idLt id (rm.renamedIds.getD (scanGo rm.renamedIds id) defaultId) := by
      rcases hsp2 with hh | hh
      · omega
      · exact hh
    have hsucc' : idLt id
        (rm.renamedIds.getD ((scanGo rm.renamedIds id - 1) + 1) defaultId) := by
      rw [show scanGo rm.renamedIds id - 1 + 1 = scanGo rm.renamedIds id from by omega]
      exact hsucclt
    have hro := renameOne_concurrent h (scanGo rm.renamedIds id - 1) (by omega)
      hpredlt hsucc'
    have hev := fromPred_eval h id (rm.renamedIds.getD (scanGo rm.renamedIds id - 1) defaultId)
      (scanGo rm.renamedIds id - 1) (by omega)
    rw [hro, hev, Option.some_bind]
    have hcast : (((scanGo rm.renamedIds id - 1 : Nat) : Int)).toNat
        = scanGo rm.renamedIds id - 1 := Int.toNat_natCast _
    have himax : ((scanGo rm.renamedIds id - 1 : Nat) : Int) < rm.maxOffset := by omega
    have hi0 : (0 : Int) ≤ ((scanGo rm.renamedIds id - 1 : Nat) : Int) := by omega
    have hccat : ∀ (y : Identifier),
        (rm.renameIdFromIndex ((scanGo rm.renamedIds id - 1 : Nat) : Int)).concat y
          = ⟨⟨rm.newRandom, rm.replicaNumber, rm.clock,
              ((scanGo rm.renamedIds id - 1 : Nat) : Int)⟩ :: y.tuples⟩ :=
      fun y => rfl
    by_cases hs1 : shapeMinTail id (rm.renamedIds.getD (scanGo rm.renamedIds id - 1) defaultId)
    · rw [if_pos hs1, hccat]
      have hXne : (id.getTail
          ((rm.renamedIds.getD (scanGo rm.renamedIds id - 1) defaultId).length + 1)).tuples
          ≠ [] := getTail_ne_nil hs1.1
      rw [reverseRename_concat h _ hi0 himax hXne]
      rw [if_pos (by
        rw [hcast, id_eta]
        exact hs1.2.2.2)]
      congr 1
      rw [hcast]
      have hlt' : (rm.renamedIds.getD (scanGo rm.renamedIds id - 1) defaultId).tuples.length
          < id.tuples.length := by
        have hx := hs1.1
        unfold Identifier.length at hx
        omega
      have hdec := eq_append_getD_drop
        (hs1.2.1 : (rm.renamedIds.getD (scanGo rm.renamedIds id - 1) defaultId).tuples
          <+: id.tuples) hlt'
      have hgetm : id.tuples.getD
          (rm.renamedIds.getD (scanGo rm.renamedIds id - 1) defaultId).tuples.length
          defaultTuple = MIN_TUPLE := hs1.2.2.1
      rw [hgetm] at hdec
      cases id with
      | mk tl =>
        congr 1
        exact hdec.symm
    · rw [if_neg hs1]
      by_cases hs2 : shapeMaxTail id
          (rm.renamedIds.getD ((scanGo rm.renamedIds id - 1) + 1) defaultId)
      · rw [if_pos hs2, hccat]
        have hXne : (id.getTail
            ((rm.renamedIds.getD ((scanGo rm.renamedIds id - 1) + 1) defaultId).length + 1)).tuples
            ≠ [] := getTail_ne_nil hs2.1
        rw [reverseRename_concat h _ hi0 himax hXne]
        have hps : idLt (rm.renamedIds.getD (scanGo rm.renamedIds id - 1) defaultId)
            (rm.renamedIds.getD ((scanGo rm.renamedIds id - 1) + 1) defaultId) :=
          rids_sorted_getD h (by omega) (by omega)
        rw [if_neg (by
          rw [hcast, id_eta]
          exact idLt_asymm (idLt_trans hps hs2.2.2.2))]
        rw [if_pos (by
          rw [hcast, id_eta]
          exact hs2.2.2.2)]
        congr 1
        rw [hcast]
        have hsne : (rm.renamedIds.getD ((scanGo rm.renamedIds id - 1) + 1) defaultId).tuples
            ≠ [] := rids_tuples_ne_nil h (by omega)
        have hplen := fromBase_length hsne
          ((rm.renamedIds.getD ((scanGo rm.renamedIds id - 1) + 1) defaultId).lastOffset - 1)
        have hlt' : ((rm.renamedIds.getD ((scanGo rm.renamedIds id - 1) + 1) defaultId).fromBase
            ((rm.renamedIds.getD ((scanGo rm.renamedIds id - 1) + 1) defaultId).lastOffset - 1)).tuples.length
            < id.tuples.length := by
          rw [hplen]
          have hx := hs2.1
          unfold Identifier.length at hx
          omega
        have hdec := eq_append_getD_drop (hs2.2.1 :
          ((rm.renamedIds.getD ((scanGo rm.renamedIds id - 1) + 1) defaultId).fromBase
            ((rm.renamedIds.getD ((scanGo rm.renamedIds id - 1) + 1) defaultId).lastOffset - 1)).tuples
          <+: id.tuples) hlt'
        rw [hplen] at hdec
        have hgetm : id.tuples.getD
            (rm.renamedIds.getD ((scanGo rm.renamedIds id - 1) + 1) defaultId).tuples.length
            defaultTuple = MAX_TUPLE := hs2.2.2.1
        rw [hgetm] at hdec
        cases id with
        | mk tl =>
          congr 1
          exact hdec.symm
      · rw [if_neg hs2, hccat]
        have hXne : id.tuples ≠ [] := by
          intro hnil
          have hcon : tlistLt rm.firstId.tuples id.tuples := hflt
          rw [hnil] at hcon
          exact tlistLt_nil_right _ hcon
        rw [reverseRename_concat h _ hi0 himax hXne]
        rw [if_neg (by
          rw [hcast, id_eta]
          exact idLt_asymm hpredlt)]
        rw [if_neg (by
          rw [hcast, id_eta]
          exact idLt_asymm hsucc')]

theorem headD_eq_getD_zero (l : List Identifier) :
    l.headD defaultId = l.getD 0 defaultId := by
  cases l <;> rfl

theorem getLastD_eq_getD (l : List Identifier) :
    l.getLastD defaultId = l.getD (l.length - 1) defaultId := by
  rw [List.getLastD_eq_getLast?, List.getLast?_eq_getElem?, List.getD_eq_getElem?_getD]

theorem firstIdE_eq {rm : RenamingMap} (h : rm.wf) :
    ExtendedRenamingMap.firstId rm = rm.firstId := by
  unfold ExtendedRenamingMap.firstId
  rw [headD_eq_getD_zero, rids_first h]

theorem lastIdE_eq {rm : RenamingMap} (h : rm.wf) :
    ExtendedRenamingMap.lastId rm = rm.lastId := by
  unfold ExtendedRenamingMap.lastId
  rw [getLastD_eq_getD, rids_last h]

theorem newRandomE_eq {rm : RenamingMap} (h : rm.wf) :
    ExtendedRenamingMap.newRandom rm = rm.newRandom := by
  unfold ExtendedRenamingMap.newRandom RenamingMap.newRandom
  rw [firstIdE_eq h]

theorem maxOffsetE_eq {rm : RenamingMap} (h : rm.wf) :
    ExtendedRenamingMap.maxOffset rm = rm.maxOffset := by
  unfold ExtendedRenamingMap.maxOffset
  have := rids_length_int h
  omega

theorem lookupNewOffset_some_key : ∀ (l : List Identifier) (key : Int × Int × Int)
    (j : Nat), lookupNewOffset l key = some j → key ∈ l.map keyOf
  | [], key, j => by simp [lookupNewOffset]
  | r :: rs, key, j => by
    unfold lookupNewOffset
    rcases hrec : lookupNewOffset rs key with _ | j2
    · by_cases hk : keyOf r = key
      · intro _
        simp [hk]
      · simp [hk]
    · intro _
      have := lookupNewOffset_some_key rs key j2 hrec
      simp [this]

/-- With pairwise-distinct keys, the nested-map lookup of a renamed
identifier returns exactly its new offset. -/
theorem lookupNewOffset_distinct : ∀ (l : List Identifier),
    (l.map keyOf).Pairwise (· ≠ ·) → ∀ k : Nat, k < l.length →
    lookupNewOffset l (keyOf (l.getD k defaultId)) = some k
  | [], _, k => by simp
  | r :: rs, hkeys, 0 => by
    intro _
    unfold lookupNewOffset
    simp only [List.getD_cons_zero]
    rcases hrec : lookupNewOffset rs (keyOf r) with _ | j2
    · simp
    · exfalso
      have hmem := lookupNewOffset_some_key rs (keyOf r) j2 hrec
      rw [List.map_cons, List.pairwise_cons] at hkeys
      exact hkeys.1 (keyOf r) hmem rfl
  | r :: rs, hkeys, k + 1 => by
    intro hklen
    unfold lookupNewOffset
    simp only [List.getD_cons_succ]
    rw [List.map_cons, List.pairwise_cons] at hkeys
    rw [lookupNewOffset_distinct rs hkeys.2 k (by simpa using hklen)]

/-- `ExtendedRenamingMap.renameId` at a renamed identifier (with
pairwise-distinct `(replicaNumber, clock, lastOffset)` keys) returns the
new identifier at its position — the same result as `RenamingMap`. -/
theorem renameIdE_renamed {rm : RenamingMap} (h : rm.wf)
    (hkeys : (rm.renamedIds.map keyOf).Pairwise (· ≠ ·)) (k : Nat)
    (hk : k < rm.renamedIds.length) :
    ExtendedRenamingMap.renameId rm (rm.renamedIds.getD k defaultId)
      = rm.renameIdFromIndex (k : Int) := by
  unfold ExtendedRenamingMap.renameId renameIdEAux
  rw [if_neg (by
    rintro (hcon | hcon)
    · rw [firstIdE_eq h, ← rids_first h] at hcon
      rcases Nat.eq_zero_or_pos k with rfl | hp
      · exact idLt_irrefl _ hcon
      · exact idLt_asymm (rids_sorted_getD h hp hk) hcon
    · rw [lastIdE_eq h, ← rids_last h] at hcon
      rcases Nat.lt_or_ge k (rm.renamedIds.length - 1) with hp | hp
      · exact idLt_asymm (rids_sorted_getD h hp (by omega)) hcon
      · rw [show k = rm.renamedIds.length - 1 from by omega] at hcon
        exact idLt_irrefl _ hcon)]
  rw [lookupNewOffset_distinct rm.renamedIds hkeys k hk]
  unfold RenamingMap.renameIdFromIndex
  rw [newRandomE_eq h]

/-- `ExtendedRenamingMap.reverseRenameId` of a renamed-space identifier
recovers the original renamed identifier — the same result as
`RenamingMap`. -/
theorem reverseRenameIdE_newId {rm : RenamingMap} (h : rm.wf) (k : Int)
    (h0 : 0 ≤ k) (hk : k ≤ rm.maxOffset) :
    ExtendedRenamingMap.reverseRenameId rm (rm.renameIdFromIndex k)
      = some (rm.renamedIds.getD k.toNat defaultId) := by
  unfold ExtendedRenamingMap.reverseRenameId
  rw [if_pos (by
    unfold ExtendedRenamingMap.hasBeenRenamed
    refine ⟨?_, ?_, ?_⟩
    · unfold ExtendedRenamingMap.newFirstId
      rw [newRandomE_eq h]
      exact ⟨rfl, rfl, rfl, rfl, rfl⟩
    · exact h0
    · rw [maxOffsetE_eq h]; exact hk)]
  rw [show (rm.renameIdFromIndex k).lastOffset = k from lastOffset_single _]
  unfold getAtInt
  rw [if_pos h0]
  have hklen : k.toNat < rm.renamedIds.length := by
    have := rids_length_int h
    omega
  rw [List.get?_eq_getElem?, List.getElem?_eq_getElem hklen]
  rw [List.getD_eq_getElem?_getD, List.getElem?_eq_getElem hklen]
  rfl

/-- Identifiers outside `[minFirstId, maxLastId]` are left unchanged by
`reverseRenameId`. -/
theorem reverseRename_out {rm : RenamingMap} {id : Identifier}
    (hz : idLt id rm.minFirstId ∨ idLt rm.maxLastId id) :
    rm.reverseRenameId id = some id := by
  have hnotren : ¬ rm.hasBeenRenamed id := by
    rintro ⟨hbase, ho0, homax⟩
    obtain ⟨hlen, -, hbt⟩ := hbase
    have hnf : rm.newFirstId.tuples
        = [⟨rm.newRandom, rm.replicaNumber, rm.clock, 0⟩] := rfl
    rw [hnf] at hlen
    simp only [List.length_cons, List.length_nil] at hlen
    obtain ⟨tl⟩ := id
    cases tl with
    | nil => simp at hlen
    | cons t rest =>
      simp only [List.length_cons] at hlen
      have hrest : rest = [] := List.length_eq_zero.mp (by omega)
      subst hrest
      obtain ⟨tr, tp, tc, tt4⟩ := t
      have hbt' : IdentifierTuple.equalsBase ⟨tr, tp, tc, tt4⟩
          ⟨rm.newRandom, rm.replicaNumber, rm.clock, 0⟩ := hbt
      obtain ⟨rfl, rfl, rfl⟩ := hbt'
      have hoo : (Identifier.mk [⟨rm.newRandom, rm.replicaNumber, rm.clock, tt4⟩]).lastOffset
          = tt4 := rfl
      rw [hoo] at ho0 homax
      rcases hz with hcon | hcon
      · unfold RenamingMap.minFirstId at hcon
        have hcp : idLt (⟨[⟨rm.newRandom, rm.replicaNumber, rm.clock, tt4⟩]⟩ : Identifier)
            rm.closestPredecessorOfNewFirstId := by
          by_cases hmf : idLt rm.firstId rm.closestPredecessorOfNewFirstId
          · rw [if_pos hmf] at hcon
            exact idLt_trans hcon hmf
          · rw [if_neg hmf] at hcon
            exact hcon
        have hcpe : rm.closestPredecessorOfNewFirstId
            = ⟨[⟨rm.newRandom, rm.replicaNumber, rm.clock, 0 - 1⟩]⟩ := rfl
        rw [hcpe] at hcp
        rcases hcp with hcp | ⟨hcp, hfalse⟩
        · rw [tupLt_base_offset_iff] at hcp
          omega
        · exact hfalse
      · unfold RenamingMap.maxLastId at hcon
        have hcs : idLt rm.newLastId
            (⟨[⟨rm.newRandom, rm.replicaNumber, rm.clock, tt4⟩]⟩ : Identifier) := by
          by_cases hml : idLt rm.newLastId rm.lastId
          · rw [if_pos hml] at hcon
            exact idLt_trans hml hcon
          · rw [if_neg hml] at hcon
            have hcse : rm.closestSuccessorOfNewLastId
                = ⟨[⟨rm.newRandom, rm.replicaNumber, rm.clock, rm.maxOffset + 1⟩]⟩ := rfl
            rw [hcse] at hcon
            have hnle : rm.newLastId
                = ⟨[⟨rm.newRandom, rm.replicaNumber, rm.clock, rm.maxOffset⟩]⟩ := rfl
            rw [hnle]
            refine tlistLt_trans ?_ hcon
            exact Or.inl (tupLt_base_offset (by omega))
        have hnle : rm.newLastId
            = ⟨[⟨rm.newRandom, rm.replicaNumber, rm.clock, rm.maxOffset⟩]⟩ := rfl
        rw [hnle] at hcs
        rcases hcs with hcs | ⟨hcs, hfalse⟩
        · rw [tupLt_base_offset_iff] at hcs
          omega
        · exact tlistLt_nil_right _ hfalse
  unfold RenamingMap.reverseRenameId
  rw [if_neg hnotren, if_pos hz]

/-- C7: for every well-formed `RenamingMap`, renaming the `k`-th renamed
identifier (0-based, in interval order) yields the single-tuple identifier
`(newRandom, replicaNumber, clock, k)`; the new offsets are dense — there are
exactly `maxOffset + 1` renamed identifiers, with `maxOffset + 1` the sum of
the interval lengths — and `newRandom` is the random of the first tuple of
the first renamed identifier. -/
theorem claim_C7 (rm : RenamingMap) (h : rm.wf) :
    (∀ k : Nat, k < rm.renamedIds.length →
      rm.renameOne (rm.renamedIds.getD k defaultId)
        = some ⟨[⟨rm.newRandom, rm.replicaNumber, rm.clock, (k : Int)⟩]⟩) ∧
    (rm.renamedIds.length : Int) = rm.maxOffset + 1 ∧
    rm.maxOffset + 1 = (rm.renamedIdIntervals.map IdentifierInterval.lengthInt).sum ∧
    rm.newRandom = ((rm.renamedIds.headD defaultId).tuples.headD defaultTuple).random := by
  refine ⟨?_, rids_length_int h, ?_, ?_⟩
  · intro k hk
    exact renameOne_renamed h k hk
  · unfold RenamingMap.maxOffset
    ring
  · rw [headD_eq_getD_zero, rids_first h]
    rfl

/-- C7, witness: the map renaming `[(0,0,0,0)] .. [(0,0,0,1)]` by replica 5
at clock 9: the second renamed identifier becomes `(0, 5, 9, 1)`. -/
theorem claim_C7_witness :
    (⟨5, 9, [⟨⟨[⟨0, 0, 0, 0⟩]⟩, 1⟩]⟩ : RenamingMap).renameOne
        ((⟨5, 9, [⟨⟨[⟨0, 0, 0, 0⟩]⟩, 1⟩]⟩ : RenamingMap).renamedIds.getD 1 defaultId)
      = some ⟨[⟨0, 5, 9, 1⟩]⟩ ∧
    ((⟨5, 9, [⟨⟨[⟨0, 0, 0, 0⟩]⟩, 1⟩]⟩ : RenamingMap).renamedIds.length : Int)
      = (⟨5, 9, [⟨⟨[⟨0, 0, 0, 0⟩]⟩, 1⟩]⟩ : RenamingMap).maxOffset + 1 := by
  have h := claim_C7 ⟨5, 9, [⟨⟨[⟨0, 0, 0, 0⟩]⟩, 1⟩]⟩ (by decide)
  exact ⟨h.1 1 (by decide), h.2.1⟩

/-- C4, counterexample: the claim "`rename(id) = id` for `id < firstId`"
fails. For the map renaming `[(5,1,1,3)] .. [(5,1,1,4)]` by replica `-1` at
clock 0, the identifier `[(5,0,0,0)]` is strictly below `firstId` but is
renamed to `closestPredecessorOfNewFirstId · id ≠ id`, because it is not
below `newFirstId = [(5,-1,0,0)]`. -/
theorem claim_C4_counterexample :
    (⟨-1, 0, [⟨⟨[⟨5, 1, 1, 3⟩]⟩, 4⟩]⟩ : RenamingMap).wf ∧
    idLt (⟨[⟨5, 0, 0, 0⟩]⟩ : Identifier)
      (⟨-1, 0, [⟨⟨[⟨5, 1, 1, 3⟩]⟩, 4⟩]⟩ : RenamingMap).firstId ∧
    (⟨-1, 0, [⟨⟨[⟨5, 1, 1, 3⟩]⟩, 4⟩]⟩ : RenamingMap).renameOne ⟨[⟨5, 0, 0, 0⟩]⟩
      ≠ some ⟨[⟨5, 0, 0, 0⟩]⟩ := by
  refine ⟨by decide, by decide, by decide⟩

/-- C4, amended: `rename` leaves `id < firstId` unchanged provided `id` is
also below `newFirstId` and does not extend `closestPredecessorOfFirstId` by
`MAX_TUPLE` (the source's special branch); symmetrically, it leaves
`id > lastId` unchanged provided `newLastId < id` and `id` does not trigger
the `lastId · MIN_TUPLE` branch. `reverseRename` leaves unchanged every
identifier outside `[minFirstId, maxLastId]`, where `minFirstId =
min(firstId, closestPredecessorOfNewFirstId)` and `maxLastId` is `lastId`
when `lastId > newLastId` and `closestSuccessorOfNewLastId` otherwise.
All three conditions are sufficient, not necessary: inside those ranges the
source can also return `id` unchanged (for instance `reverseRenameId`'s
final branch when `newLastId < id < lastId` fails its two shape tests). -/
theorem claim_C4_amended (rm : RenamingMap) (h : rm.wf) (id : Identifier) :
    (idLt id rm.firstId → idLt id rm.newFirstId → ¬ specialLess rm id →
      rm.renameOne id = some id) ∧
    (idLt rm.lastId id → idLt rm.newLastId id → ¬ specialGreater rm id →
      rm.renameOne id = some id) ∧
    ((idLt id rm.minFirstId ∨ idLt rm.maxLastId id) →
      rm.reverseRenameId id = some id) := by
  refine ⟨?_, ?_, ?_⟩
  · intro h1 h2 h3
    rw [renameOne_ltFirst h h1]
    unfold RenamingMap.renameIdLessThanFirstId
    rw [if_neg h3, if_pos h2]
  · intro h1 h2 h3
    rw [renameOne_gtLast h h1]
    unfold RenamingMap.renameIdGreaterThanLastId
    rw [if_neg h3, if_pos h2]
  · exact reverseRename_out

/-- C4, witness: the amended theorem applied to the map renaming
`[(0,0,0,0)] .. [(0,0,0,1)]` by replica 5 at clock 9 and the identifier
`[(-5,0,0,0)]`, outside the renamed range on the left. -/
theorem claim_C4_witness :
    (⟨5, 9, [⟨⟨[⟨0, 0, 0, 0⟩]⟩, 1⟩]⟩ : RenamingMap).renameOne ⟨[⟨-5, 0, 0, 0⟩]⟩
      = some ⟨[⟨-5, 0, 0, 0⟩]⟩ ∧
    (⟨5, 9, [⟨⟨[⟨0, 0, 0, 0⟩]⟩, 1⟩]⟩ : RenamingMap).reverseRenameId ⟨[⟨-5, 0, 0, 0⟩]⟩
      = some ⟨[⟨-5, 0, 0, 0⟩]⟩ := by
  have h := claim_C4_amended ⟨5, 9, [⟨⟨[⟨0, 0, 0, 0⟩]⟩, 1⟩]⟩ (by decide) ⟨[⟨-5, 0, 0, 0⟩]⟩
  exact ⟨h.1 (by decide) (by decide) (by decide), h.2.2 (by decide)⟩

/-- C3, counterexample: renaming is not strictly order-preserving on all
identifiers. For the map renaming `[(0,0,0,0)] .. [(0,0,0,1)]` by replica 5
at clock 9, the identifiers `a = [(0,0,0,0), (MIN, -3, 0, 0)]` and
`b = [(0,0,0,0), MIN_TUPLE, (MIN, -100, 0, 0)]` satisfy `a < b`, both lie
strictly between `firstId` and `lastId`, yet `rename(a) > rename(b)`:
`b` hits the `predecessorId · MIN_TUPLE · tail` branch and is mapped to
`newPredecessorId · tail`, dropping the `MIN_TUPLE` that kept it above `a`. -/
theorem claim_C3_counterexample :
    (⟨5, 9, [⟨⟨[⟨0, 0, 0, 0⟩]⟩, 1⟩]⟩ : RenamingMap).wf ∧
    idLt (⟨[⟨0, 0, 0, 0⟩, ⟨-2147483648, -3, 0, 0⟩]⟩ : Identifier)
      ⟨[⟨0, 0, 0, 0⟩, ⟨-2147483648, 0, 0, 0⟩, ⟨-2147483648, -100, 0, 0⟩]⟩ ∧
    (⟨5, 9, [⟨⟨[⟨0, 0, 0, 0⟩]⟩, 1⟩]⟩ : RenamingMap).renameOne
        ⟨[⟨0, 0, 0, 0⟩, ⟨-2147483648, -3, 0, 0⟩]⟩
      = some ⟨[⟨0, 5, 9, 0⟩, ⟨0, 0, 0, 0⟩, ⟨-2147483648, -3, 0, 0⟩]⟩ ∧
    (⟨5, 9, [⟨⟨[⟨0, 0, 0, 0⟩]⟩, 1⟩]⟩ : RenamingMap).renameOne
        ⟨[⟨0, 0, 0, 0⟩, ⟨-2147483648, 0, 0, 0⟩, ⟨-2147483648, -100, 0, 0⟩]⟩
      = some ⟨[⟨0, 5, 9, 0⟩, ⟨-2147483648, -100, 0, 0⟩]⟩ ∧
    ¬ idLt (⟨[⟨0, 5, 9, 0⟩, ⟨0, 0, 0, 0⟩, ⟨-2147483648, -3, 0, 0⟩]⟩ : Identifier)
      ⟨[⟨0, 5, 9, 0⟩, ⟨-2147483648, -100, 0, 0⟩]⟩ := by
  refine ⟨by decide, by decide, by decide, by decide, by decide⟩

/-- C3, amended: renaming is strictly order-preserving on the renamed
identifiers — the `j`-th and `k`-th renamed identifiers map to the new
identifiers at offsets `j < k`, which are ordered — and `reverseRename` is
strictly order-preserving on the new renamed range, mapping ordered new
identifiers back to the ordered renamed identifiers. -/
theorem claim_C3_amended (rm : RenamingMap) (h : rm.wf) :
    (∀ j k : Nat, j < k → k < rm.renamedIds.length →
      rm.renameOne (rm.renamedIds.getD j defaultId)
          = some (rm.renameIdFromIndex (j : Int)) ∧
      rm.renameOne (rm.renamedIds.getD k defaultId)
          = some (rm.renameIdFromIndex (k : Int)) ∧
      idLt (rm.renameIdFromIndex (j : Int)) (rm.renameIdFromIndex (k : Int))) ∧
    (∀ j k : Nat, j < k → (k : Int) ≤ rm.maxOffset →
      rm.reverseRenameId (rm.renameIdFromIndex (j : Int))
          = some (rm.renamedIds.getD j defaultId) ∧
      rm.reverseRenameId (rm.renameIdFromIndex (k : Int))
          = some (rm.renamedIds.getD k defaultId) ∧
      idLt (rm.renamedIds.getD j defaultId) (rm.renamedIds.getD k defaultId)) := by
  have hlen := rids_length_int h
  constructor
  · intro j k hjk hk
    refine ⟨renameOne_renamed h j (by omega), renameOne_renamed h k hk, ?_⟩
    exact Or.inl (tupLt_base_offset (by omega))
  · intro j k hjk hk
    have hklen : k < rm.renamedIds.length := by omega
    have hj := reverseRename_newId h (j : Int) (by omega) (by omega)
    have hk2 := reverseRename_newId h (k : Int) (by omega) hk
    rw [Int.toNat_natCast] at hj hk2
    exact ⟨hj, hk2, rids_sorted_getD h hjk hklen⟩

/-- C3, witness: the amended theorem at the two renamed identifiers of the
map renaming `[(0,0,0,0)] .. [(0,0,0,1)]` by replica 5 at clock 9. -/
theorem claim_C3_witness :
    idLt ((⟨5, 9, [⟨⟨[⟨0, 0, 0, 0⟩]⟩, 1⟩]⟩ : RenamingMap).renameIdFromIndex 0)
      ((⟨5, 9, [⟨⟨[⟨0, 0, 0, 0⟩]⟩, 1⟩]⟩ : RenamingMap).renameIdFromIndex 1) ∧
    idLt ((⟨5, 9, [⟨⟨[⟨0, 0, 0, 0⟩]⟩, 1⟩]⟩ : RenamingMap).renamedIds.getD 0 defaultId)
      ((⟨5, 9, [⟨⟨[⟨0, 0, 0, 0⟩]⟩, 1⟩]⟩ : RenamingMap).renamedIds.getD 1 defaultId) := by
  have h := claim_C3_amended ⟨5, 9, [⟨⟨[⟨0, 0, 0, 0⟩]⟩, 1⟩]⟩ (by decide)
  exact ⟨((h.1 0 1 (by decide) (by decide)).2.2 :),
    ((h.2 0 1 (by decide) (by decide)).2.2 :)⟩

/-- C5, counterexample: for a concurrent identifier strictly between two
consecutive renamed identifiers, `rename(id)` is not always
`rename(predecessorId) · id`. For the map renaming `[(0,0,0,0)] ..
[(0,0,0,1)]` by replica 5 at clock 9 and `id = [(0,0,0,0), MIN_TUPLE,
(MIN, -1, 0, 0)]` — which extends the renamed predecessor `[(0,0,0,0)]` by
`MIN_TUPLE` and a smaller tail — the source's first special branch fires and
the result is `newPredecessorId · tail`, not `newPredecessorId · id`. -/
theorem claim_C5_counterexample :
    (⟨5, 9, [⟨⟨[⟨0, 0, 0, 0⟩]⟩, 1⟩]⟩ : RenamingMap).wf ∧
    idLt ((⟨5, 9, [⟨⟨[⟨0, 0, 0, 0⟩]⟩, 1⟩]⟩ : RenamingMap).renamedIds.getD 0 defaultId)
      ⟨[⟨0, 0, 0, 0⟩, ⟨-2147483648, 0, 0, 0⟩, ⟨-2147483648, -1, 0, 0⟩]⟩ ∧
    idLt (⟨[⟨0, 0, 0, 0⟩, ⟨-2147483648, 0, 0, 0⟩, ⟨-2147483648, -1, 0, 0⟩]⟩ : Identifier)
      ((⟨5, 9, [⟨⟨[⟨0, 0, 0, 0⟩]⟩, 1⟩]⟩ : RenamingMap).renamedIds.getD 1 defaultId) ∧
    (⟨5, 9, [⟨⟨[⟨0, 0, 0, 0⟩]⟩, 1⟩]⟩ : RenamingMap).renameOne
        ⟨[⟨0, 0, 0, 0⟩, ⟨-2147483648, 0, 0, 0⟩, ⟨-2147483648, -1, 0, 0⟩]⟩
      = some ⟨[⟨0, 5, 9, 0⟩, ⟨-2147483648, -1, 0, 0⟩]⟩ ∧
    (⟨5, 9, [⟨⟨[⟨0, 0, 0, 0⟩]⟩, 1⟩]⟩ : RenamingMap).renameOne
        ⟨[⟨0, 0, 0, 0⟩, ⟨-2147483648, 0, 0, 0⟩, ⟨-2147483648, -1, 0, 0⟩]⟩
      ≠ some (((⟨5, 9, [⟨⟨[⟨0, 0, 0, 0⟩]⟩, 1⟩]⟩ : RenamingMap).renameIdFromIndex 0).concat
        ⟨[⟨0, 0, 0, 0⟩, ⟨-2147483648, 0, 0, 0⟩, ⟨-2147483648, -1, 0, 0⟩]⟩) := by
  refine ⟨by decide, by decide, by decide, by decide, by decide⟩

/-- C5, amended: for a well-formed `RenamingMap` and a concurrent identifier
strictly between the `k`-th and `(k+1)`-th renamed identifiers, `rename(id)`
is `newPredecessorId · id` unless one of the two special shapes applies:
if `id` extends `predecessorId` by `MIN_TUPLE` and a tail below
`predecessorId`, the result is `newPredecessorId · tail`; otherwise, if `id`
extends `closestPredecessorOf(successorId)` by `MAX_TUPLE` and a tail above
`successorId`, the result is `newPredecessorId · tail`. -/
theorem claim_C5_amended (rm : RenamingMap) (h : rm.wf) (id : Identifier)
    (k : Nat) (hk1 : k + 1 < rm.renamedIds.length)
    (hlt : idLt (rm.renamedIds.getD k defaultId) id)
    (hub : idLt id (rm.renamedIds.getD (k + 1) defaultId)) :
    rm.renameOne id = some (
      if shapeMinTail id (rm.renamedIds.getD k defaultId) then
        (rm.renameIdFromIndex (k : Int)).concat
          (id.getTail ((rm.renamedIds.getD k defaultId).length + 1))
      else if shapeMaxTail id (rm.renamedIds.getD (k + 1) defaultId) then
        (rm.renameIdFromIndex (k : Int)).concat
          (id.getTail ((rm.renamedIds.getD (k + 1) defaultId).length + 1))
      else
        (rm.renameIdFromIndex (k : Int)).concat id) := by
  rw [renameOne_concurrent h k hk1 hlt hub]
  exact fromPred_eval h id _ k hk1

/-- C5, witness: the amended theorem at the map renaming `[(0,0,0,0)] ..
[(0,0,0,1)]` by replica 5 at clock 9 and the shape-free concurrent
identifier `[(0,0,0,0), (5,5,5,5)]`. -/
theorem claim_C5_witness :
    (⟨5, 9, [⟨⟨[⟨0, 0, 0, 0⟩]⟩, 1⟩]⟩ : RenamingMap).renameOne
        ⟨[⟨0, 0, 0, 0⟩, ⟨5, 5, 5, 5⟩]⟩
      = some ⟨[⟨0, 5, 9, 0⟩, ⟨0, 0, 0, 0⟩, ⟨5, 5, 5, 5⟩]⟩ := by
  have h := claim_C5_amended ⟨5, 9, [⟨⟨[⟨0, 0, 0, 0⟩]⟩, 1⟩]⟩ (by decide)
    ⟨[⟨0, 0, 0, 0⟩, ⟨5, 5, 5, 5⟩]⟩ 0 (by decide) (by decide) (by decide)
  exact h.trans (by decide)

/-- C1, counterexample: the round trip fails for `ExtendedRenamingMap`. The
map renaming `[(1,5,5,0)] .. [(2,5,5,0)]` by replica 7 at clock 1 is
well-formed, but its two renamed identifiers share the nested-map key
`(replicaNumber, clock, lastOffset) = (5,5,0)`, so the second insertion
overwrites the first: renaming the renamed identifier `[(1,5,5,0)]` (which
lies in `[firstId, lastId]`) and reverse-renaming the result yields
`[(2,5,5,0)]`, not the original. -/
theorem claim_C1_counterexample :
    (⟨7, 1, [⟨⟨[⟨1, 5, 5, 0⟩]⟩, 0⟩, ⟨⟨[⟨2, 5, 5, 0⟩]⟩, 0⟩]⟩ : RenamingMap).wf ∧
    idLe (ExtendedRenamingMap.firstId
        ⟨7, 1, [⟨⟨[⟨1, 5, 5, 0⟩]⟩, 0⟩, ⟨⟨[⟨2, 5, 5, 0⟩]⟩, 0⟩]⟩) ⟨[⟨1, 5, 5, 0⟩]⟩ ∧
    idLe (⟨[⟨1, 5, 5, 0⟩]⟩ : Identifier) (ExtendedRenamingMap.lastId
        ⟨7, 1, [⟨⟨[⟨1, 5, 5, 0⟩]⟩, 0⟩, ⟨⟨[⟨2, 5, 5, 0⟩]⟩, 0⟩]⟩) ∧
    ExtendedRenamingMap.reverseRenameId
        ⟨7, 1, [⟨⟨[⟨1, 5, 5, 0⟩]⟩, 0⟩, ⟨⟨[⟨2, 5, 5, 0⟩]⟩, 0⟩]⟩
        (ExtendedRenamingMap.renameId
          ⟨7, 1, [⟨⟨[⟨1, 5, 5, 0⟩]⟩, 0⟩, ⟨⟨[⟨2, 5, 5, 0⟩]⟩, 0⟩]⟩ ⟨[⟨1, 5, 5, 0⟩]⟩)
      = some ⟨[⟨2, 5, 5, 0⟩]⟩ ∧
    some (⟨[⟨2, 5, 5, 0⟩]⟩ : Identifier) ≠ some (⟨[⟨1, 5, 5, 0⟩]⟩ : Identifier) := by
  refine ⟨by decide, by decide, by decide, by decide, by decide⟩

/-- C1, amended: the round trip holds for `RenamingMap` on all of
`[firstId, lastId]`; for `ExtendedRenamingMap` it holds on the renamed
identifiers provided their nested-map keys `(replicaNumber, clock,
lastOffset)` are pairwise distinct (so that no map insertion overwrites
another). -/
theorem claim_C1_amended (rm : RenamingMap) (h : rm.wf) :
    (∀ id : Identifier, idLe rm.firstId id → idLe id rm.lastId →
      (rm.renameOne id).bind rm.reverseRenameId = some id) ∧
    ((rm.renamedIds.map keyOf).Pairwise (· ≠ ·) →
      ∀ k : Nat, k < rm.renamedIds.length →
        ExtendedRenamingMap.reverseRenameId rm
            (ExtendedRenamingMap.renameId rm (rm.renamedIds.getD k defaultId))
          = some (rm.renamedIds.getD k defaultId)) := by
  constructor
  · intro id h1 h2
    exact roundTrip_renamingMap h h1 h2
  · intro hkeys k hk
    rw [renameIdE_renamed h hkeys k hk]
    have hres := reverseRenameIdE_newId h (k : Int) (by omega)
      (by have := rids_length_int h; omega)
    rw [Int.toNat_natCast] at hres
    exact hres

/-- C1, witness: both round trips at the map renaming `[(0,0,0,0)] ..
[(0,0,0,1)]` by replica 5 at clock 9 — a concurrent identifier for the
`RenamingMap` side, the first renamed identifier for the extended side. -/
theorem claim_C1_witness :
    ((⟨5, 9, [⟨⟨[⟨0, 0, 0, 0⟩]⟩, 1⟩]⟩ : RenamingMap).renameOne
        ⟨[⟨0, 0, 0, 0⟩, ⟨3, 3, 3, 3⟩]⟩).bind
      (⟨5, 9, [⟨⟨[⟨0, 0, 0, 0⟩]⟩, 1⟩]⟩ : RenamingMap).reverseRenameId
      = some ⟨[⟨0, 0, 0, 0⟩, ⟨3, 3, 3, 3⟩]⟩ ∧
    ExtendedRenamingMap.reverseRenameId ⟨5, 9, [⟨⟨[⟨0, 0, 0, 0⟩]⟩, 1⟩]⟩
        (ExtendedRenamingMap.renameId ⟨5, 9, [⟨⟨[⟨0, 0, 0, 0⟩]⟩, 1⟩]⟩
          ((⟨5, 9, [⟨⟨[⟨0, 0, 0, 0⟩]⟩, 1⟩]⟩ : RenamingMap).renamedIds.getD 0 defaultId))
      = some ((⟨5, 9, [⟨⟨[⟨0, 0, 0, 0⟩]⟩, 1⟩]⟩ : RenamingMap).renamedIds.getD 0 defaultId)
    := by
  have h := claim_C1_amended ⟨5, 9, [⟨⟨[⟨0, 0, 0, 0⟩]⟩, 1⟩]⟩ (by decide)
  exact ⟨h.1 ⟨[⟨0, 0, 0, 0⟩, ⟨3, 3, 3, 3⟩]⟩ (by decide) (by decide),
    h.2 (by decide) 0 (by decide)⟩

/-- C10, counterexample: the two implementations are not equivalent. For the
map renaming `[(0,0,0,0)] .. [(0,0,0,1)]` by replica 5 at clock 9 — whose
nested-map keys are pairwise distinct — and the concurrent identifier
`[(0,0,0,0), MIN_TUPLE, (MIN,-2,0,0)]`, `RenamingMap` takes its
`predecessorId · MIN_TUPLE · tail` branch and returns
`[(0,5,9,0), (MIN,-2,0,0)]`, while `ExtendedRenamingMap.renameId` has no
such branch and returns `[(0,5,9,0), (0,0,0,0), MIN_TUPLE, (MIN,-2,0,0)]`. -/
theorem claim_C10_counterexample :
    (⟨5, 9, [⟨⟨[⟨0, 0, 0, 0⟩]⟩, 1⟩]⟩ : RenamingMap).wf ∧
    ((⟨5, 9, [⟨⟨[⟨0, 0, 0, 0⟩]⟩, 1⟩]⟩ : RenamingMap).renamedIds.map keyOf).Pairwise
      (· ≠ ·) ∧
    (⟨5, 9, [⟨⟨[⟨0, 0, 0, 0⟩]⟩, 1⟩]⟩ : RenamingMap).renameOne
        ⟨[⟨0, 0, 0, 0⟩, ⟨-2147483648, 0, 0, 0⟩, ⟨-2147483648, -2, 0, 0⟩]⟩
      = some ⟨[⟨0, 5, 9, 0⟩, ⟨-2147483648, -2, 0, 0⟩]⟩ ∧
    ExtendedRenamingMap.renameId ⟨5, 9, [⟨⟨[⟨0, 0, 0, 0⟩]⟩, 1⟩]⟩
        ⟨[⟨0, 0, 0, 0⟩, ⟨-2147483648, 0, 0, 0⟩, ⟨-2147483648, -2, 0, 0⟩]⟩
      = ⟨[⟨0, 5, 9, 0⟩, ⟨0, 0, 0, 0⟩, ⟨-2147483648, 0, 0, 0⟩, ⟨-2147483648, -2, 0, 0⟩]⟩ ∧
    some (⟨[⟨0, 5, 9, 0⟩, ⟨-2147483648, -2, 0, 0⟩]⟩ : Identifier)
      ≠ some (⟨[⟨0, 5, 9, 0⟩, ⟨0, 0, 0, 0⟩, ⟨-2147483648, 0, 0, 0⟩,
          ⟨-2147483648, -2, 0, 0⟩]⟩ : Identifier) := by
  refine ⟨by decide, by decide, by decide, by decide, by decide⟩

/-- C10, amended: with pairwise-distinct nested-map keys the two
implementations agree on the renamed identifiers (forward) and on the
renamed range of the new space (reverse): `ExtendedRenamingMap.renameId`
returns the same identifier as `RenamingMap`'s rename at every renamed
identifier, and `ExtendedRenamingMap.reverseRenameId` agrees with
`RenamingMap.reverseRenameId` at every new identifier `(newRandom,
replicaNumber, clock, k)` with `0 ≤ k ≤ maxOffset`. -/
theorem claim_C10_amended (rm : RenamingMap) (h : rm.wf)
    (hkeys : (rm.renamedIds.map keyOf).Pairwise (· ≠ ·)) :
    (∀ k : Nat, k < rm.renamedIds.length →
      some (ExtendedRenamingMap.renameId rm (rm.renamedIds.getD k defaultId))
        = rm.renameOne (rm.renamedIds.getD k defaultId)) ∧
    (∀ k : Int, 0 ≤ k → k ≤ rm.maxOffset →
      ExtendedRenamingMap.reverseRenameId rm (rm.renameIdFromIndex k)
        = rm.reverseRenameId (rm.renameIdFromIndex k)) := by
  constructor
  · intro k hk
    rw [renameIdE_renamed h hkeys k hk, renameOne_renamed h k hk]
  · intro k h0 hk
    rw [reverseRenameIdE_newId h k h0 hk, reverseRename_newId h k h0 hk]

/-- C10, witness: the amended theorem at the map renaming `[(0,0,0,0)] ..
[(0,0,0,1)]` by replica 5 at clock 9, renamed index 1 and new offset 1. -/
theorem claim_C10_witness :
    some (ExtendedRenamingMap.renameId ⟨5, 9, [⟨⟨[⟨0, 0, 0, 0⟩]⟩, 1⟩]⟩
        ((⟨5, 9, [⟨⟨[⟨0, 0, 0, 0⟩]⟩, 1⟩]⟩ : RenamingMap).renamedIds.getD 1 defaultId))
      = (⟨5, 9, [⟨⟨[⟨0, 0, 0, 0⟩]⟩, 1⟩]⟩ : RenamingMap).renameOne
        ((⟨5, 9, [⟨⟨[⟨0, 0, 0, 0⟩]⟩, 1⟩]⟩ : RenamingMap).renamedIds.getD 1 defaultId) ∧
    ExtendedRenamingMap.reverseRenameId ⟨5, 9, [⟨⟨[⟨0, 0, 0, 0⟩]⟩, 1⟩]⟩
        ((⟨5, 9, [⟨⟨[⟨0, 0, 0, 0⟩]⟩, 1⟩]⟩ : RenamingMap).renameIdFromIndex 1)
      = (⟨5, 9, [⟨⟨[⟨0, 0, 0, 0⟩]⟩, 1⟩]⟩ : RenamingMap).reverseRenameId
        ((⟨5, 9, [⟨⟨[⟨0, 0, 0, 0⟩]⟩, 1⟩]⟩ : RenamingMap).renameIdFromIndex 1) := by
  have h := claim_C10_amended ⟨5, 9, [⟨⟨[⟨0, 0, 0, 0⟩]⟩, 1⟩]⟩ (by decide) (by decide)
  exact ⟨h.1 1 (by decide), h.2 1 (by decide) (by decide)⟩

theorem filterMap_full_iff (l : List Plain) :
    (l.filterMap IdentifierInterval.fromPlain).length = l.length ↔
      ∀ q ∈ l, IdentifierInterval.fromPlain q ≠ none := by
  induction l with
  | nil => simp
  | cons q qs ih =>
    rcases hq : IdentifierInterval.fromPlain q with _ | iv
    · simp only [List.filterMap_cons, hq, List.length_cons]
      constructor
      · intro hlen
        exfalso
        have := List.length_filterMap_le IdentifierInterval.fromPlain qs
        omega
      · intro hall
        exact absurd hq (hall q (List.mem_cons_self q qs))
    · simp only [List.filterMap_cons, hq, List.length_cons, Nat.add_right_cancel_iff,
        List.mem_cons]
      rw [ih]
      constructor
      · rintro hall q2 (rfl | hmem)
        · rw [hq]; exact fun hcon => Option.noConfusion hcon
        · exact hall q2 hmem
      · intro hall q2 hmem
        exact hall q2 (Or.inr hmem)

/-- A successfully deserialized interval is well-formed: its begin offset is
at most its end offset and its begin identifier is nonempty. -/
theorem intervalFromPlain_wf {q : Plain} {iv : IdentifierInterval}
    (h : IdentifierInterval.fromPlain q = some iv) :
    iv.beginOffset ≤ iv.endOffset ∧ iv.idBegin.tuples ≠ [] := by
  unfold IdentifierInterval.fromPlain at h
  rcases h1 : q.get? PKey.base with _ | pb
  · rw [h1, Option.none_bind] at h
    exact Option.noConfusion h
  rw [h1] at h
  simp only [Option.some_bind] at h
  rcases h2 : asArr pb with _ | l
  · rw [h2, Option.none_bind] at h
    exact Option.noConfusion h
  rw [h2] at h
  simp only [Option.some_bind] at h
  rcases h3 : asInt32? (q.get? PKey.beginKey) with _ | b
  · rw [h3, Option.none_bind] at h
    exact Option.noConfusion h
  rw [h3] at h
  simp only [Option.some_bind] at h
  rcases h4 : asInt32? (q.get? PKey.endKey) with _ | e
  · rw [h4, Option.none_bind] at h
    exact Option.noConfusion h
  rw [h4] at h
  simp only [Option.some_bind] at h
  rcases h5 : tuplesFromPlain l with _ | ts
  · rw [h5, Option.none_bind] at h
    exact Option.noConfusion h
  rw [h5] at h
  simp only [Option.some_bind] at h
  by_cases hc : ts ≠ [] ∧ b ≤ e
  · rw [if_pos hc] at h
    obtain ⟨hne, hbe⟩ := hc
    injection h with h
    subst h
    constructor
    · unfold IdentifierInterval.beginOffset
      dsimp only
      rw [lastOffset_fromBase]
      exact hbe
    · dsimp only
      intro hcon
      have hne2 : (⟨ts⟩ : Identifier).tuples ≠ [] := hne
      have := fromBase_length hne2 b
      rw [hcon] at this
      simp only [List.length_nil] at this
      exact hne (List.length_eq_zero.mp this.symm)
  · rw [if_neg hc] at h
    exact Option.noConfusion h

theorem block_some_iff (p : Plain) :
    (∃ b, LogootSBlock.fromPlain p = some b) ↔ blockShape p := by
  constructor
  · rintro ⟨b, hb⟩
    unfold LogootSBlock.fromPlain at hb
    rcases h1 : p.get? PKey.idInterval with _ | pid
    · rw [h1, Option.none_bind] at hb
      exact Option.noConfusion hb
    rw [h1] at hb
    simp only [Option.some_bind] at hb
    rcases h2 : asInt32? (p.get? PKey.nbElement) with _ | n
    · rw [h2, Option.none_bind] at hb
      exact Option.noConfusion hb
    rw [h2] at hb
    simp only [Option.some_bind] at hb
    by_cases hc : isObjectLike pid = true ∧ 0 ≤ n
    · rw [if_pos hc] at hb
      rcases h5 : IdentifierInterval.fromPlain pid with _ | iv
      · rw [h5, Option.none_bind] at hb
        exact Option.noConfusion hb
      exact ⟨pid, n, iv, h1, hc.1, h2, hc.2, h5⟩
    · rw [if_neg hc] at hb
      exact Option.noConfusion hb
  · rintro ⟨pid, n, iv, h1, h2, h3, h4, h5⟩
    refine ⟨⟨iv, n⟩, ?_⟩
    unfold LogootSBlock.fromPlain
    rw [h1]
    simp only [Option.some_bind]
    rw [h3]
    simp only [Option.some_bind]
    rw [if_pos ⟨h2, h4⟩, h5]
    simp only [Option.some_bind]

theorem rmap_some_iff (p : Plain) :
    (∃ rm, RenamingMap.fromPlain p = some rm) ↔ rmapShape p := by
  constructor
  · rintro ⟨rm, hrm⟩
    unfold RenamingMap.fromPlain at hrm
    rcases h1 : asInt32? (p.get? PKey.replicaNumber) with _ | rn
    · rw [h1, Option.none_bind] at hrm
      exact Option.noConfusion hrm
    rw [h1] at hrm
    simp only [Option.some_bind] at hrm
    rcases h2 : asInt32? (p.get? PKey.clock) with _ | c
    · rw [h2, Option.none_bind] at hrm
      exact Option.noConfusion hrm
    rw [h2] at hrm
    simp only [Option.some_bind] at hrm
    rcases h3 : p.get? PKey.renamedIdIntervals with _ | pl
    · rw [h3, Option.none_bind] at hrm
      exact Option.noConfusion hrm
    rw [h3] at hrm
    simp only [Option.some_bind] at hrm
    rcases h4 : asArr pl with _ | l
    · rw [h4, Option.none_bind] at hrm
      exact Option.noConfusion hrm
    rw [h4] at hrm
    simp only [Option.some_bind] at hrm
    by_cases hc : 0 < l.length
        ∧ (l.filterMap IdentifierInterval.fromPlain).length = l.length
    · have hpl : pl = Plain.arr l := by
        rcases pl with _ | _ | _ | _ | _ | l2 | _ <;>
          first
          | exact Option.noConfusion h4
          | exact congrArg Plain.arr (Option.some.inj h4)
      refine ⟨rn, c, l, h1, h2, hpl ▸ h3, ?_, (filterMap_full_iff l).mp hc.2⟩
      intro hnil
      rw [hnil] at hc
      simp only [List.length_nil] at hc
      omega
    · rw [if_neg hc] at hrm
      exact Option.noConfusion hrm
  · rintro ⟨rn, c, l, h1, h2, h3, h4, h5⟩
    refine ⟨⟨rn, c, l.filterMap IdentifierInterval.fromPlain⟩, ?_⟩
    unfold RenamingMap.fromPlain
    rw [h1]
    simp only [Option.some_bind]
    rw [h2]
    simp only [Option.some_bind]
    rw [h3]
    simp only [Option.some_bind]
    rw [show asArr (Plain.arr l) = some l from rfl]
    simp only [Option.some_bind]
    rw [if_pos ⟨List.length_pos_of_ne_nil h4, (filterMap_full_iff l).mpr h5⟩]

/-- C8: `LogootSBlock.fromPlain` and `RenamingMap.fromPlain` return the
absent value (`none`) exactly on malformed input — a missing or non-object
`idInterval`, a missing, non-int32 or negative `nbElement`, an invalid
identifier interval; a missing or non-int32 `replicaNumber` or `clock`, a
missing, non-array or empty `renamedIdIntervals`, or any invalid element of
it — and on success (both are pure functions; no state is mutated) return
the deserialized object, whose intervals are all well-formed (nonempty base,
begin ≤ end) with a non-negative count and a nonempty interval list. -/
theorem claim_C8 (p : Plain) :
    (LogootSBlock.fromPlain p = none ↔ ¬ blockShape p) ∧
    (RenamingMap.fromPlain p = none ↔ ¬ rmapShape p) ∧
    (∀ b, LogootSBlock.fromPlain p = some b →
      0 ≤ b.nbElement ∧ b.idInterval.beginOffset ≤ b.idInterval.endOffset ∧
        b.idInterval.idBegin.tuples ≠ []) ∧
    (∀ rm, RenamingMap.fromPlain p = some rm →
      rm.renamedIdIntervals ≠ [] ∧
      ∀ iv ∈ rm.renamedIdIntervals,
        iv.beginOffset ≤ iv.endOffset ∧ iv.idBegin.tuples ≠ []) := by
  refine ⟨?_, ?_, ?_, ?_⟩
  · constructor
    · intro hnone hshape
      obtain ⟨b, hb⟩ := (block_some_iff p).mpr hshape
      rw [hnone] at hb
      exact Option.noConfusion hb
    · intro hns
      rcases hb : LogootSBlock.fromPlain p with _ | b
      · rfl
      · exact absurd ((block_some_iff p).mp ⟨b, hb⟩) hns
  · constructor
    · intro hnone hshape
      obtain ⟨rm, hrm⟩ := (rmap_some_iff p).mpr hshape
      rw [hnone] at hrm
      exact Option.noConfusion hrm
    · intro hns
      rcases hrm : RenamingMap.fromPlain p with _ | rm
      · rfl
      · exact absurd ((rmap_some_iff p).mp ⟨rm, hrm⟩) hns
  · intro b hb
    obtain ⟨pid, n, iv, h1, h2, h3, h4, h5⟩ := (block_some_iff p).mp ⟨b, hb⟩
    have hb2 : LogootSBlock.fromPlain p = some ⟨iv, n⟩ := by
      unfold LogootSBlock.fromPlain
      rw [h1]
      simp only [Option.some_bind]
      rw [h3]
      simp only [Option.some_bind]
      rw [if_pos ⟨h2, h4⟩, h5]
      simp only [Option.some_bind]
    rw [hb2] at hb
    injection hb with hb
    subst hb
    exact ⟨h4, (intervalFromPlain_wf h5).1, (intervalFromPlain_wf h5).2⟩
  · intro rm hrm
    unfold RenamingMap.fromPlain at hrm
    rcases h1 : asInt32? (p.get? PKey.replicaNumber) with _ | rn
    · rw [h1, Option.none_bind] at hrm
      exact Option.noConfusion hrm
    rw [h1] at hrm
    simp only [Option.some_bind] at hrm
    rcases h2 : asInt32? (p.get? PKey.clock) with _ | c
    · rw [h2, Option.none_bind] at hrm
      exact Option.noConfusion hrm
    rw [h2] at hrm
    simp only [Option.some_bind] at hrm
    rcases h3 : p.get? PKey.renamedIdIntervals with _ | pl
    · rw [h3, Option.none_bind] at hrm
      exact Option.noConfusion hrm
    rw [h3] at hrm
    simp only [Option.some_bind] at hrm
    rcases h4 : asArr pl with _ | l
    · rw [h4, Option.none_bind] at hrm
      exact Option.noConfusion hrm
    rw [h4] at hrm
    simp only [Option.some_bind] at hrm
    by_cases hc : 0 < l.length
        ∧ (l.filterMap IdentifierInterval.fromPlain).length = l.length
    · rw [if_pos hc] at hrm
      injection hrm with hrm
      subst hrm
      constructor
      · intro hnil
        have : (l.filterMap IdentifierInterval.fromPlain).length = 0 := by
          rw [show RenamingMap.renamedIdIntervals
              ⟨rn, c, l.filterMap IdentifierInterval.fromPlain⟩
            = l.filterMap IdentifierInterval.fromPlain from rfl] at hnil
          rw [hnil]
          rfl
        omega
      · intro iv hmem
        rw [show RenamingMap.renamedIdIntervals
            ⟨rn, c, l.filterMap IdentifierInterval.fromPlain⟩
          = l.filterMap IdentifierInterval.fromPlain from rfl] at hmem
        obtain ⟨q, -, hq⟩ := List.mem_filterMap.mp hmem
        exact intervalFromPlain_wf hq
    · rw [if_neg hc] at hrm
      exact Option.noConfusion hrm

/-- C8, witness: the success conjuncts at concrete serialized values — a
block with one-tuple interval `base = [(1,2,3,0)]`, `begin = 0`, `end = 1`
and `nbElement = 2`, and a renaming map with that interval, `replicaNumber
= 4` and `clock = 5`. -/
theorem claim_C8_witness :
    (0 : Int) ≤ (⟨⟨⟨[⟨1, 2, 3, 0⟩]⟩, 1⟩, 2⟩ : LogootSBlock).nbElement ∧
    (⟨⟨⟨[⟨1, 2, 3, 0⟩]⟩, 1⟩, 2⟩ : LogootSBlock).idInterval.beginOffset
      ≤ (⟨⟨⟨[⟨1, 2, 3, 0⟩]⟩, 1⟩, 2⟩ : LogootSBlock).idInterval.endOffset ∧
    (⟨4, 5, [⟨⟨[⟨1, 2, 3, 0⟩]⟩, 1⟩]⟩ : RenamingMap).renamedIdIntervals ≠ [] := by
  have hb := (claim_C8 (Plain.obj
      [(PKey.idInterval, Plain.obj
          [(PKey.base, Plain.arr [Plain.obj
              [(PKey.random, Plain.intNum 1), (PKey.replicaNumber, Plain.intNum 2),
               (PKey.clock, Plain.intNum 3), (PKey.offset, Plain.intNum 0)]]),
           (PKey.beginKey, Plain.intNum 0), (PKey.endKey, Plain.intNum 1)]),
       (PKey.nbElement, Plain.intNum 2)])).2.2.1
    ⟨⟨⟨[⟨1, 2, 3, 0⟩]⟩, 1⟩, 2⟩ rfl
  have hr := (claim_C8 (Plain.obj
      [(PKey.replicaNumber, Plain.intNum 4), (PKey.clock, Plain.intNum 5),
       (PKey.renamedIdIntervals, Plain.arr [Plain.obj
          [(PKey.base, Plain.arr [Plain.obj
              [(PKey.random, Plain.intNum 1), (PKey.replicaNumber, Plain.intNum 2),
               (PKey.clock, Plain.intNum 3), (PKey.offset, Plain.intNum 0)]]),
           (PKey.beginKey, Plain.intNum 0), (PKey.endKey, Plain.intNum 1)]])])).2.2.2
    ⟨4, 5, [⟨⟨[⟨1, 2, 3, 0⟩]⟩, 1⟩]⟩ rfl
  exact ⟨hb.1, hb.2.1, hr.1⟩
